import Mathlib

/-!
Shallow embedding of the grid-search measurement harness
(`grid-search.py`) and the per-gate binary finalizer
(`create-optimal-binaries.py`) of the Transient-Weird-Machine repository,
together with proofs about its parser, trial runner, sweep controller,
best-configuration selector, temporary-file lifecycle and template
substitution.

Machine reals from the scripts (accuracy percentages) are modelled as
rationals; subprocess invocations are modelled by an explicit environment
recording the outcome of each external command; Python exceptions are
modelled by `Except`.
-/

namespace GridSearch

/-- `GATE_NAMES` in grid-search.py. -/
def GATE_NAMES : List String := ["AND", "OR", "ASSIGN", "NOT", "NAND", "XOR", "MUX"]

/-- Python `range(start, stop, step)` for a positive step. -/
def pythonRange (start stop step : Nat) : List Nat :=
  (List.range ((stop - start + step - 1) / step)).map (fun i => start + step * i)

/-- `THRESHOLDS = range(100, 301, 25)`. -/
def THRESHOLDS : List Nat := pythonRange 100 301 25

/-- `DELAYS` in grid-search.py. -/
def DELAYS : List Nat := [32, 48, 64, 96, 128, 192, 256, 512, 1024]

/-- `AMT_TRIALS` in grid-search.py (the trial-count argument of the run). -/
def AMT_TRIALS : Nat := 10

/-- Python substring containment `needle in hay`. -/
def containsSub (hay needle : String) : Bool := decide (needle.data <:+: hay.data)

/-- The fixed marker substring searched for in each output line. -/
def MARKER : String := "Correct rate: (avg, std)"

/-- Character class `[0-9.]` of the accuracy regex. -/
def isNumChar (c : Char) : Bool := c.isDigit || c == '.'

/-- One anchored attempt of the regex `\(([0-9.]+)%`: an opening
parenthesis, a maximal nonempty `[0-9.]` run, then a percent sign.
Returns the captured group. -/
def matchParenAt : List Char → Option (List Char)
  | '(' :: rest =>
    let run := rest.takeWhile isNumChar
    if run.isEmpty then none
    else
      match rest.drop run.length with
      | '%' :: _ => some run
      | _ => none
  | _ => none

/-- `re.search(r'\(([0-9.]+)%', line)`: group 1 of the leftmost match. -/
def searchParenNum : List Char → Option (List Char)
  | [] => none
  | c :: cs =>
    match matchParenAt (c :: cs) with
    | some run => some run
    | none => searchParenNum cs

/-- Value of a digit string read in base 10. -/
def digitsVal (l : List Char) : Nat := l.foldl (fun n c => 10 * n + (c.toNat - 48)) 0

/-- The rational denoted by integer part `a` and fractional part `b`. -/
def pyDecimal (a b : List Char) : ℚ :=
  (digitsVal a : ℚ) + (digitsVal b : ℚ) / (10 : ℚ) ^ b.length

/-- Python `float` applied to a string drawn from `[0-9.]*`: it succeeds
exactly on strings with at least one digit and at most one dot. -/
def pyFloat? (l : List Char) : Option ℚ :=
  if l.any Char.isDigit then
    match l.splitOn '.' with
    | [a] => some (digitsVal a)
    | [a, b] => some (pyDecimal a b)
    | _ => none
  else none

/-- Python dict from gate names to accuracies, as an insertion-ordered
association list. -/
abbrev Dict := List (String × ℚ)

/-- Python dict assignment `d[k] = v`: update in place, else append. -/
def dictInsert (d : Dict) (k : String) (v : ℚ) : Dict :=
  if d.any (fun p => p.1 == k) then
    d.map (fun p => if p.1 == k then (k, v) else p)
  else d ++ [(k, v)]

/-- Python `d.get(k, v)`. -/
def dictGetD (d : Dict) (k : String) (v : ℚ) : ℚ :=
  match d.find? (fun p => p.1 == k) with
  | some p => p.2
  | none => v

/-- Python exceptions that can escape the modelled fragments. -/
inductive PyExn
  | attrError
  | valueError
  | osError
  deriving DecidableEq, Repr

/-- The gate-header fragment `f"=== {gate} gate"`. -/
def gateHeader (g : String) : String := "=== " ++ g ++ " gate"

/-- First catalogue gate whose header fragment occurs in the line
(the `for gate in GATE_NAMES ... break` loop). -/
def findGate (prev : String) : Option String :=
  GATE_NAMES.find? (fun g => containsSub prev (gateHeader g))

/-- Python list indexing with negative wrap-around (only index `-1` is
reachable here, and the list is nonempty whenever this is evaluated). -/
def pyGet (lines : List String) (i : Int) : String :=
  if i < 0 then lines.getD (lines.length - (-i).toNat) ""
  else lines.getD i.toNat ""

/-- `prev_line = lines[lines.index(line) - 1]`: the line before the FIRST
occurrence of the text `line` in the capture. -/
def lookback (lines : List String) (line : String) : String :=
  pyGet lines ((lines.findIdx (fun l => l == line) : Int) - 1)

/-- Body of the extraction loop of `test_parameters` for one line. -/
def parseStep (lines : List String) (acc : Dict) (line : String) : Except PyExn Dict :=
  if containsSub line MARKER then
    match findGate (lookback lines line) with
    | none => .ok acc
    | some g =>
      match searchParenNum line.data with
      | none => .error .attrError
      | some run =>
        match pyFloat? run with
        | none => .error .valueError
        | some v => .ok (dictInsert acc g v)
  else .ok acc

/-- The result-extraction loop of `test_parameters`: an `AttributeError`
(regex miss) or `ValueError` (bad float) escapes as an exception. -/
def parseGateAccuracies (lines : List String) : Except PyExn Dict :=
  lines.foldlM (fun acc line => parseStep lines acc line) []

/-- Newline splitting of a character list (keeping a final empty piece for
a trailing newline). -/
def splitNl : List Char → List Char → List (List Char)
  | cur, [] => [cur.reverse]
  | cur, c :: cs =>
    if c = '\n' then cur.reverse :: splitNl [] cs else splitNl (c :: cur) cs

/-- Python `str.splitlines` (the captures at hand only use `\n`): no entry
for the empty string, and no final empty entry after a trailing newline. -/
def pySplitlines (s : String) : List String :=
  if s.data.isEmpty then []
  else
    let parts := (splitNl [] s.data).map String.mk
    if s.data.getLast? = some '\n' then parts.dropLast else parts

/-- Outcome of `subprocess.run(['./main_temp.elf', ...])` (no `check=True`):
either the process fails to launch (raising `OSError`), or it runs to some
exit code with some captured standard output. -/
inductive RunOutcome
  | launchFail
  | ran (exitCode : Int) (stdout : String)

/-- Outcome of the external commands issued for one grid point: the three
`check=True` build steps and the final run. -/
structure PointEnv where
  makeCleanOk : Bool
  composeBuildOk : Bool
  mainBuildOk : Bool
  run : RunOutcome

/-- Whether some `check=True` build command exits nonzero. -/
def buildFailed (e : PointEnv) : Bool :=
  !(e.makeCleanOk && e.composeBuildOk && e.mainBuildOk)

/-- Working-directory state, as the list of files present. -/
def addFile (fs : List String) (f : String) : List String :=
  if fs.contains f then fs else fs ++ [f]

def removeFile (fs : List String) (f : String) : List String :=
  fs.filter (fun g => g != f)

/-- The temporaries created by `test_parameters`. -/
def SWEEP_TEMP_FILES : List String :=
  ["main_temp.cpp", "main_temp.elf", "gates/compose_temp.cpp"]

/-- The `finally` block of `test_parameters`. -/
def cleanupSweepTemps (fs : List String) : List String :=
  removeFile (removeFile (removeFile fs "main_temp.cpp") "main_temp.elf")
    "gates/compose_temp.cpp"

/-- `test_parameters(threshold, delay)` with the temporary files threaded
through: writes the two generated sources, attempts the three build
commands (a `CalledProcessError` is caught and turns into `{}`), runs the
artifact (a launch failure raises `OSError`, uncaught), parses the capture
(a parse failure raises, uncaught), and in all cases executes the
`finally` block removing the three temporaries. -/
def test_parameters_fs (env : PointEnv) (fs0 : List String) :
    Except PyExn Dict × List String :=
  let fs1 := addFile (addFile fs0 "gates/compose_temp.cpp") "main_temp.cpp"
  let res : Except PyExn Dict × List String :=
    if !env.makeCleanOk then (.ok [], fs1)
    else if !env.composeBuildOk then (.ok [], fs1)
    else
      let fs2 := addFile fs1 "build/compose.o"
      if !env.mainBuildOk then (.ok [], fs2)
      else
        let fs3 := addFile fs2 "main_temp.elf"
        match env.run with
        | .launchFail => (.error .osError, fs3)
        | .ran _ out => (parseGateAccuracies (pySplitlines out), fs3)
  (res.1, cleanupSweepTemps res.2)

/-- The value/exception returned by `test_parameters`. -/
def test_parameters (env : PointEnv) : Except PyExn Dict :=
  (test_parameters_fs env []).1

/-- The dictionaries produced for one threshold row, in delay order
(the inner loop of `main`); an exception aborts the row. -/
def rowDicts (env : Nat → Nat → PointEnv) (t : Nat) : Except PyExn (List Dict) :=
  DELAYS.mapM (fun d => test_parameters (env t d))

/-- One threshold of the sweep: append-and-flush the completed row, or
stop at the first uncaught exception. -/
def sweepStep (env : Nat → Nat → PointEnv)
    (st : List (Nat × List Dict) × Option PyExn) (t : Nat) :
    List (Nat × List Dict) × Option PyExn :=
  match st.2 with
  | some _ => st
  | none =>
    match rowDicts env t with
    | .ok ds => (st.1 ++ [(t, ds)], none)
    | .error e => (st.1, some e)

/-- The sweep of `main`: rows are flushed per completed threshold; an
uncaught exception aborts the sweep, keeping the rows flushed so far. -/
def sweepRun (env : Nat → Nat → PointEnv) :
    List (Nat × List Dict) × Option PyExn :=
  THRESHOLDS.foldl (sweepStep env) ([], none)

/-- `gate_accuracies.get(gate, 0)` across one flushed row. -/
def gateRow (ds : List Dict) (g : String) : List ℚ :=
  ds.map (fun d => dictGetD d g 0)

/-- The persisted result matrix of gate `g`: the flushed rows, each row the
threshold followed by one accuracy per delay. -/
def gateMatrix (env : Nat → Nat → PointEnv) (g : String) : List (Nat × List ℚ) :=
  (sweepRun env).1.map (fun r => (r.1, gateRow r.2 g))

/-- The dictionary carried by a non-raising `test_parameters` result. -/
def exValD : Except PyExn Dict → Dict
  | .ok dd => dd
  | .error _ => []

/-- The gate dictionary computed at one grid point (empty on a caught
build failure; unused on the uncaught-exception paths). -/
def pointDict (env : Nat → Nat → PointEnv) (t d : Nat) : Dict :=
  exValD (test_parameters (env t d))

/-- A best-configuration record of the selector. -/
structure BestCfg where
  threshold : Nat
  delay : Nat
  accuracy : ℚ
  deriving DecidableEq, Repr

/-- One enumerated accuracy of a row, scanned with the strict
`accuracy > best_accuracy` comparison. -/
def selectRowStep (t : Nat) (b : BestCfg) (p : Nat × ℚ) : BestCfg :=
  if p.1 < DELAYS.length ∧ p.2 > b.accuracy then ⟨t, DELAYS.getD p.1 0, p.2⟩ else b

/-- Scan of one matrix row `(threshold, accuracies)`. -/
def selectRow (b : BestCfg) (row : Nat × List ℚ) : BestCfg :=
  (row.2.enum).foldl (selectRowStep row.1) b

/-- The best-configuration scan of `main` over one gate's persisted
matrix, starting from `best_threshold = best_delay = best_accuracy = 0`. -/
def selectBest (m : List (Nat × List ℚ)) : BestCfg :=
  m.foldl selectRow ⟨0, 0, 0⟩

/-- The grid entries `(threshold, delay, accuracy)` of a matrix in
row-major scan order, restricted (as the scan is) to the delay columns. -/
def matrixEntries (m : List (Nat × List ℚ)) : List (Nat × Nat × ℚ) :=
  m.flatMap (fun r =>
    ((r.2.enum).filter (fun p => p.1 < DELAYS.length)).map
      (fun p => (r.1, DELAYS.getD p.1 0, p.2)))

/-- The maximum accuracy value present anywhere in a matrix (at least 0,
as all persisted accuracies are). -/
def matrixMax (m : List (Nat × List ℚ)) : ℚ :=
  m.foldl (fun q r => r.2.foldl max q) 0

/-- One entry step of the best-configuration scan over flattened entries. -/
def selStep (b : BestCfg) (e : Nat × Nat × ℚ) : BestCfg :=
  if e.2.2 > b.accuracy then ⟨e.1, e.2.1, e.2.2⟩ else b

/-- Best-configuration scan over a flat entry list. -/
def selectEntries (L : List (Nat × Nat × ℚ)) (b : BestCfg) : BestCfg :=
  L.foldl selStep b

/-- Running maximum of entry accuracies. -/
def entriesMax (L : List (Nat × Nat × ℚ)) (q : ℚ) : ℚ :=
  L.foldl (fun m e => max m e.2.2) q

/-! ### Spec-side definitions

These definitions follow the wording of the specification (not the code)
and are compared with the code-derived definitions above. -/

/-- Spec-side parse step: the marker on line `i` is associated through the
line immediately preceding it, `i - 1`; a marker on the very first line has
no preceding line and is associated with no gate. -/
def specStep (lines : List String) (acc : Dict) (i : Nat) (line : String) :
    Except PyExn Dict :=
  if containsSub line MARKER then
    if i = 0 then .ok acc
    else
      match findGate (lines.getD (i - 1) "") with
      | none => .ok acc
      | some g =>
        match searchParenNum line.data with
        | none => .error .attrError
        | some run =>
          match pyFloat? run with
          | none => .error .valueError
          | some v => .ok (dictInsert acc g v)
  else .ok acc

/-- Parse as the spec words the lookback: every marker line is matched
against exactly the single line immediately preceding it. -/
def specParse (lines : List String) : Except PyExn Dict :=
  lines.enum.foldlM (fun acc p => specStep lines acc p.1 p.2) []

/-- Spec-side scan for "the first decimal number that appears immediately
before a literal percent sign": the maximal `[0-9.]` run (holding at least
one digit) ending right at the first qualifying percent sign.  The first
argument accumulates the current run, reversed. -/
def percentNumScan : List Char → List Char → Option (List Char)
  | _, [] => none
  | runRev, c :: cs =>
    if c == '%' then
      if runRev.any Char.isDigit then some runRev.reverse
      else percentNumScan [] cs
    else if isNumChar c then percentNumScan (c :: runRev) cs
    else percentNumScan [] cs

/-- The first decimal number immediately before a percent sign, as the
spec sentence describes the extraction. -/
def specFirstPercentNum (cs : List Char) : Option (List Char) :=
  percentNumScan [] cs

/-- The paren-number-percent pattern anchored at offset `i`. -/
def parenNumAt (cs : List Char) (i : Nat) : Option (List Char) :=
  matchParenAt (cs.drop i)

/-! ### create-optimal-binaries.py -/

/-- `GATE_FUNCTIONS`: invocation symbol and arity per gate. -/
def GATE_FUNCTIONS : List (String × String × Nat) :=
  [("AND", "do_and_gate", 2), ("OR", "do_or_gate", 2), ("ASSIGN", "do_assign_gate", 1),
   ("NOT", "do_not_gate", 1), ("NAND", "do_nand_gate", 2), ("XOR", "do_xor_gate", 2),
   ("MUX", "do_mux_gate", 3)]

/-- `BEST_CONFIGS`: the hard-coded best (threshold, delay) per gate. -/
def BEST_CONFIGS : List (String × Nat × Nat) :=
  [("AND", 225, 128), ("OR", 275, 128), ("ASSIGN", 250, 128), ("NOT", 150, 512),
   ("NAND", 100, 512), ("XOR", 275, 1024), ("MUX", 275, 256)]

/-- Outcome of the external commands of `create_optimized_binary`. -/
structure BuildEnv where
  makeCleanOk : Bool
  composeBuildOk : Bool
  mainBuildOk : Bool

/-- `gate_name.lower()` for the catalogue gates (ASCII lower-casing). -/
def pyLower (s : String) : String := String.mk (s.data.map Char.toLower)

def createTempMain (g : String) : String := "main_" ++ pyLower g ++ ".cpp"

def createTempCompose (g : String) : String := "gates/compose_" ++ pyLower g ++ ".cpp"

/-- The `finally` block of `create_optimized_binary`. -/
def cleanupCreateTemps (g : String) (fs : List String) : List String :=
  removeFile (removeFile fs (createTempMain g)) (createTempCompose g)

/-- `create_optimized_binary` with the temporary files threaded through:
writes the two generated sources, attempts the build commands (compile
errors are caught and yield `False`), and in all cases executes the
`finally` block removing the two temporaries. -/
def create_optimized_binary_fs (env : BuildEnv) (g : String) (fs0 : List String) :
    Bool × List String :=
  let fs1 := addFile (addFile fs0 (createTempCompose g)) (createTempMain g)
  let res : Bool × List String :=
    if !env.makeCleanOk then (false, fs1)
    else if !env.composeBuildOk then (false, fs1)
    else
      let fs2 := addFile fs1 ("build/compose_" ++ pyLower g ++ ".o")
      if !env.mainBuildOk then (false, fs2)
      else (true, addFile fs2 ("optimal-binaries/main_" ++ pyLower g ++ ".elf"))
  (res.1, cleanupCreateTemps g res.2)

/-! ### Template substitution (`re.sub`) model

The two directive patterns `#define THRESHOLD \d+` and `#define DELAY \d+`
are a literal followed by a maximal nonempty digit run; the include
reference and the gate-invocation placeholder are literal patterns.  (The
unescaped `.` of the include pattern matches any character in Python; the
template's include reference is the literal text, so the dot is modelled
as the literal dot.)  `re.sub` replaces every leftmost non-overlapping
match, scanning left to right. -/

/-- Literal part of `#define THRESHOLD \d+`. -/
def THR_LIT : List Char := "#define THRESHOLD ".data

/-- Literal part of `#define DELAY \d+`. -/
def DLY_LIT : List Char := "#define DELAY ".data

/-- The include-reference pattern of the main template. -/
def INC_PAT : List Char := "#include \"gates/compose.cpp\"".data

/-- The gate-invocation placeholder statement of the main template. -/
def STMT_PAT : List Char :=
  "test_gate(\"GATE_NAME_PLACEHOLDER\", GATE_FUNCTION_PLACEHOLDER, GATE_INPUTS_PLACEHOLDER);".data

/-- The common token of the three placeholder identifiers. -/
def TOKEN : List Char := "PLACEHOLDER".data

/-- One anchored attempt of `lit ++ \d+`: the literal, then a maximal
nonempty digit run.  Returns the run and the rest after the match. -/
def matchDirAt (lit cs : List Char) : Option (List Char × List Char) :=
  if lit.isPrefixOf cs then
    if ((cs.drop lit.length).takeWhile Char.isDigit).isEmpty then none
    else some ((cs.drop lit.length).takeWhile Char.isDigit,
      (cs.drop lit.length).dropWhile Char.isDigit)
  else none

/-- `re.sub(lit ++ r'\d+', lit ++ val, ·)`: replace every leftmost
non-overlapping directive match. -/
def subDir (lit val : List Char) : List Char → List Char
  | [] => []
  | c :: cs =>
    match h : matchDirAt lit (c :: cs) with
    | some pr => lit ++ val ++ subDir lit val pr.2
    | none => c :: subDir lit val cs
termination_by cs => cs.length
decreasing_by
  · simp only [matchDirAt] at h
    split at h
    · split at h
      · exact absurd h (by simp)
      next hrun =>
        cases h
        have h1 : ((c :: cs).drop lit.length).takeWhile Char.isDigit ≠ [] := by
          simpa using hrun
        have h2 : (((c :: cs).drop lit.length).takeWhile Char.isDigit).length +
            (((c :: cs).drop lit.length).dropWhile Char.isDigit).length =
            ((c :: cs).drop lit.length).length := by
          rw [← List.length_append, List.takeWhile_append_dropWhile]
        have h3 : 1 ≤ (((c :: cs).drop lit.length).takeWhile Char.isDigit).length :=
          List.length_pos.mpr h1
        have h4 : ((c :: cs).drop lit.length).length ≤ (c :: cs).length := by
          rw [List.length_drop]
          omega
        simp only [List.length_cons] at h4 ⊢
        omega
    · exact absurd h (by simp)
  · simp

/-- The digit runs of all directive matches, in text order. -/
def dirMatches (lit : List Char) : List Char → List (List Char)
  | [] => []
  | c :: cs =>
    match h : matchDirAt lit (c :: cs) with
    | some pr => pr.1 :: dirMatches lit pr.2
    | none => dirMatches lit cs
termination_by cs => cs.length
decreasing_by
  · simp only [matchDirAt] at h
    split at h
    · split at h
      · exact absurd h (by simp)
      next hrun =>
        cases h
        have h1 : ((c :: cs).drop lit.length).takeWhile Char.isDigit ≠ [] := by
          simpa using hrun
        have h2 : (((c :: cs).drop lit.length).takeWhile Char.isDigit).length +
            (((c :: cs).drop lit.length).dropWhile Char.isDigit).length =
            ((c :: cs).drop lit.length).length := by
          rw [← List.length_append, List.takeWhile_append_dropWhile]
        have h3 : 1 ≤ (((c :: cs).drop lit.length).takeWhile Char.isDigit).length :=
          List.length_pos.mpr h1
        have h4 : ((c :: cs).drop lit.length).length ≤ (c :: cs).length := by
          rw [List.length_drop]
          omega
        simp only [List.length_cons] at h4 ⊢
        omega
    · exact absurd h (by simp)
  · simp

/-- One anchored attempt of a literal pattern (the modelled patterns are
nonempty; the empty pattern never matches here). -/
def matchLitAt (p cs : List Char) : Option (List Char) :=
  if p.isEmpty then none
  else if p.isPrefixOf cs then some (cs.drop p.length) else none

/-- `re.sub` for a literal pattern: replace every leftmost
non-overlapping occurrence of `p` by `r`. -/
def subLit (p r : List Char) : List Char → List Char
  | [] => []
  | c :: cs =>
    match h : matchLitAt p (c :: cs) with
    | some rest => r ++ subLit p r rest
    | none => c :: subLit p r cs
termination_by cs => cs.length
decreasing_by
  · simp only [matchLitAt] at h
    split at h
    · exact absurd h (by simp)
    next hp =>
      split at h
      · cases h
        have hp1 : 1 ≤ p.length := by
          cases p
          · simp at hp
          · simp
        rw [List.length_drop]
        simp only [List.length_cons]
        omega
      · exact absurd h (by simp)
  · simp

/-- The number of non-overlapping occurrences of a literal pattern. -/
def litOccurs (p : List Char) : List Char → Nat
  | [] => 0
  | c :: cs =>
    match h : matchLitAt p (c :: cs) with
    | some rest => 1 + litOccurs p rest
    | none => litOccurs p cs
termination_by cs => cs.length
decreasing_by
  · simp only [matchLitAt] at h
    split at h
    · exact absurd h (by simp)
    next hp =>
      split at h
      · cases h
        have hp1 : 1 ≤ p.length := by
          cases p
          · simp at hp
          · simp
        rw [List.length_drop]
        simp only [List.length_cons]
        omega
      · exact absurd h (by simp)
  · simp

/-- Decimal digits of a natural number (Python `str(n)`). -/
def natDigits (n : Nat) : List Char :=
  if h : n < 10 then [Char.ofNat (48 + n)]
  else natDigits (n / 10) ++ [Char.ofNat (48 + n % 10)]
termination_by n
decreasing_by
  exact Nat.div_lt_self (by omega) (by omega)

/-- `GATE_FUNCTIONS[gate_name]` (the catalogue lookup; a missing gate
would raise `KeyError` in Python and is unreachable for catalogue gates). -/
def gateFunction (g : String) : String × Nat :=
  match GATE_FUNCTIONS.find? (fun p => p.1 == g) with
  | some p => p.2
  | none => ("", 0)

/-- The include-reference replacement
`f'#include "gates/compose_{gate_name.lower()}.cpp"'`. -/
def incRepl (g : String) : List Char :=
  ("#include \"gates/compose_" ++ pyLower g ++ ".cpp\"").data

/-- The placeholder replacement
`f'test_gate("{gate_name}", {gate_function}, {input_count});'`. -/
def stmtRepl (g : String) : List Char :=
  "test_gate(\"".data ++ g.data ++ "\", ".data ++ (gateFunction g).1.data ++
    ", ".data ++ natDigits (gateFunction g).2 ++ ");".data

/-- The two generated texts of `create_optimized_binary`: the four
substitutions of the source, in source order — threshold directive, delay
directive (both templates), then include reference and placeholder
invocation (main template only). -/
def create_optimized_binary_texts (g : String) (threshold delay : Nat)
    (content_compose content_main : List Char) : List Char × List Char :=
  let composeOut := subDir DLY_LIT (natDigits delay)
    (subDir THR_LIT (natDigits threshold) content_compose)
  let main2 := subDir DLY_LIT (natDigits delay)
    (subDir THR_LIT (natDigits threshold) content_main)
  let main3 := subLit INC_PAT (incRepl g) main2
  let main4 := subLit STMT_PAT (stmtRepl g) main3
  (composeOut, main4)

/-! ### Concrete inputs used in example and counterexample theorems -/

/-- A compose template with one threshold and one delay directive. -/
def plainCompose : List Char := "#define THRESHOLD 100\n#define DELAY 32\n".data

/-- A main template satisfying the claim's stated precondition (exactly
one threshold directive, one delay directive, one placeholder invocation)
but carrying a stray placeholder token outside the invocation. -/
def strayMain : List Char :=
  ("#define THRESHOLD 100\n#define DELAY 32\n#include \"gates/compose.cpp\"\n".data ++
    STMT_PAT ++ "\n// GATE_INPUTS_PLACEHOLDER\n".data)

/-- The part of a well-formed main template before the placeholder. -/
def cleanMainA : List Char :=
  "#define THRESHOLD 100\n#define DELAY 32\n#include \"gates/compose.cpp\"\n".data

/-- The part of a well-formed main template after the placeholder. -/
def cleanMainB : List Char := "\nreturn 0;\n".data

/-- A well-formed main template: directives, include reference, one
placeholder invocation, no stray placeholder tokens. -/
def cleanMain : List Char := cleanMainA ++ STMT_PAT ++ cleanMainB

/-- A standard marker line of the simulator's report. -/
def markerXorLine : String := "Correct rate: (avg, std) (87.3%, 2.1%)"

/-- A capture in which the same marker-line text occurs twice: once after
the XOR header and once after the AND header. -/
def dupCapture : List String :=
  ["=== XOR gate ===", markerXorLine, "=== AND gate ===", markerXorLine]

/-- A marker line carrying an unparenthesised percentage before the
parenthesised one. -/
def strayPercentLine : String := "Correct rate: (avg, std) 11.1% (87.3%, 2.1%)"

/-- A capture whose marker line follows a known header but holds no
`(number%` fragment. -/
def badXorCapture : String := "=== XOR gate ===\nCorrect rate: (avg, std) none\n"

/-- A well-formed one-gate capture. -/
def xorStdout : String := "=== XOR gate ===\nCorrect rate: (avg, std) (87.3%, 2.1%)\n"

/-- All build commands succeed; the artifact exits 1 yet printed a full
XOR block. -/
def envNonzeroExit : PointEnv := ⟨true, true, true, .ran 1 xorStdout⟩

/-- All build commands succeed; the artifact fails to launch. -/
def envLaunchFail : PointEnv := ⟨true, true, true, .launchFail⟩

/-- All commands succeed and the artifact prints nothing. -/
def envOkEmpty : PointEnv := ⟨true, true, true, .ran 0 ""⟩

/-- A sweep in which the very first grid point's run fails to launch and
every other grid point behaves. -/
def sweepEnvLaunch : Nat → Nat → PointEnv :=
  fun t d => if t == 100 && d == 32 then envLaunchFail else envOkEmpty

/-- A sweep in which every build fails (the caught failure mode). -/
def sweepEnvBuildFail : Nat → Nat → PointEnv :=
  fun _ _ => ⟨false, true, true, .ran 0 ""⟩

/-- The full-grid all-zero matrix: the persisted matrix of a sweep in
which every grid point failed to build. -/
def zeroMatrix : List (Nat × List ℚ) :=
  THRESHOLDS.map (fun t => (t, List.replicate DELAYS.length 0))

/-- The parsed accuracy 87.3, as the parser builds it. -/
def acc873 : ℚ := pyDecimal "87".data "3".data

/-- The parsed accuracy 11.1, as the parser would build it. -/
def acc111 : ℚ := pyDecimal "11".data "1".data

/-! ### Fuel-indexed evaluators

The substitution functions recurse on a list that shrinks but is not a
structural subterm, so they are defined by well-founded recursion and the
kernel cannot evaluate them on concrete inputs.  The fuel-indexed variants
below recurse structurally on the fuel and agree with them whenever the
fuel covers the input length; concrete instances are then settled by
`decide` through the agreement lemmas. -/

/-- Fuel-indexed `subDir`. -/
def subDirF (lit val : List Char) : Nat → List Char → List Char
  | 0, cs => cs
  | _ + 1, [] => []
  | fuel + 1, c :: cs =>
    match matchDirAt lit (c :: cs) with
    | some pr => lit ++ val ++ subDirF lit val fuel pr.2
    | none => c :: subDirF lit val fuel cs

/-- Fuel-indexed `dirMatches`. -/
def dirMatchesF (lit : List Char) : Nat → List Char → List (List Char)
  | 0, _ => []
  | _ + 1, [] => []
  | fuel + 1, c :: cs =>
    match matchDirAt lit (c :: cs) with
    | some pr => pr.1 :: dirMatchesF lit fuel pr.2
    | none => dirMatchesF lit fuel cs

/-- Fuel-indexed `subLit`. -/
def subLitF (p r : List Char) : Nat → List Char → List Char
  | 0, cs => cs
  | _ + 1, [] => []
  | fuel + 1, c :: cs =>
    match matchLitAt p (c :: cs) with
    | some rest => r ++ subLitF p r fuel rest
    | none => c :: subLitF p r fuel cs

/-- Fuel-indexed `litOccurs`. -/
def litOccursF (p : List Char) : Nat → List Char → Nat
  | 0, _ => 0
  | _ + 1, [] => 0
  | fuel + 1, c :: cs =>
    match matchLitAt p (c :: cs) with
    | some rest => 1 + litOccursF p fuel rest
    | none => litOccursF p fuel cs

/-! ## Helper lemmas -/

set_option maxRecDepth 100000

theorem acc873_eq : acc873 = 87.3 := by
  have ha : digitsVal "87".data = 87 := by decide
  have hb : digitsVal "3".data = 3 := by decide
  have hc : ("3".data).length = 1 := by decide
  unfold acc873 pyDecimal
  rw [ha, hb, hc]
  norm_num

theorem acc111_eq : acc111 = 11.1 := by
  have ha : digitsVal "11".data = 11 := by decide
  have hb : digitsVal "1".data = 1 := by decide
  have hc : ("1".data).length = 1 := by decide
  unfold acc111 pyDecimal
  rw [ha, hb, hc]
  norm_num

theorem notMem_removeFile_self (fs : List String) (f : String) : f ∉ removeFile fs f := by
  simp [removeFile]

theorem mem_of_mem_removeFile {fs : List String} {f x : String}
    (h : x ∈ removeFile fs f) : x ∈ fs :=
  (List.mem_filter.mp h).1

theorem notMem_removeFile3 (X : List String) (a b c f : String)
    (hf : f = a ∨ f = b ∨ f = c) :
    f ∉ removeFile (removeFile (removeFile X a) b) c := by
  rcases hf with rfl | rfl | rfl
  · exact fun h =>
      notMem_removeFile_self X f (mem_of_mem_removeFile (mem_of_mem_removeFile h))
  · exact fun h => notMem_removeFile_self _ f (mem_of_mem_removeFile h)
  · exact fun h => notMem_removeFile_self _ f h

theorem test_parameters_buildFail (env : PointEnv) (h : buildFailed env = true) :
    test_parameters env = .ok [] := by
  obtain ⟨mc, cb, mb, run⟩ := env
  cases mc with
  | false => rfl
  | true =>
    cases cb with
    | false => rfl
    | true =>
      cases mb with
      | false => rfl
      | true => exact absurd h (by simp [buildFailed])

theorem test_parameters_ran (env : PointEnv) (c : Int) (s : String)
    (hb : buildFailed env = false) (hr : env.run = .ran c s) :
    test_parameters env = parseGateAccuracies (pySplitlines s) := by
  obtain ⟨mc, cb, mb, run⟩ := env
  cases mc with
  | false => simp [buildFailed] at hb
  | true =>
    cases cb with
    | false => simp [buildFailed] at hb
    | true =>
      cases mb with
      | false => simp [buildFailed] at hb
      | true => subst hr; rfl

theorem test_parameters_launchFail (env : PointEnv)
    (hb : buildFailed env = false) (hr : env.run = .launchFail) :
    test_parameters env = .error .osError := by
  obtain ⟨mc, cb, mb, run⟩ := env
  cases mc with
  | false => simp [buildFailed] at hb
  | true =>
    cases cb with
    | false => simp [buildFailed] at hb
    | true =>
      cases mb with
      | false => simp [buildFailed] at hb
      | true => subst hr; rfl

/-! ## Claim theorems -/

/-- C2, counterexample.  The claim states that a nonzero exit status or a
launch failure yields an empty capture without raising past the trial
runner.  On the code: the run is issued without `check=True`, so after a
nonzero exit the captured output is parsed normally and can yield a
non-empty per-gate mapping; and a launch failure raises an `OSError`
that `except subprocess.CalledProcessError` does not catch. -/
theorem c2_counterexample :
    test_parameters envNonzeroExit = .ok [("XOR", acc873)] ∧
    acc873 = 87.3 ∧
    ([("XOR", acc873)] : Dict) ≠ [] ∧
    test_parameters envLaunchFail = .error .osError :=
  ⟨rfl, acc873_eq, by simp, rfl⟩

/-- C2, amended: a build failure (any `check=True` build command exiting
nonzero) yields the empty mapping without raising; a run that launches is
never checked for its exit status — its capture is parsed normally; a
launch failure raises an uncaught `OSError` past `test_parameters`. -/
theorem c2_amended :
    (∀ env : PointEnv, buildFailed env = true → test_parameters env = .ok []) ∧
    (∀ (env : PointEnv) (c : Int) (s : String), buildFailed env = false →
      env.run = .ran c s → test_parameters env = parseGateAccuracies (pySplitlines s)) ∧
    (∀ env : PointEnv, buildFailed env = false → env.run = .launchFail →
      test_parameters env = .error .osError) :=
  ⟨test_parameters_buildFail, test_parameters_ran, test_parameters_launchFail⟩

/-- C2, witness for the amended theorem at concrete environments. -/
theorem c2_witness :
    test_parameters ⟨false, true, true, .ran 0 ""⟩ = .ok [] ∧
    test_parameters envNonzeroExit = parseGateAccuracies (pySplitlines xorStdout) ∧
    test_parameters envLaunchFail = .error .osError :=
  ⟨c2_amended.1 ⟨false, true, true, .ran 0 ""⟩ rfl,
   c2_amended.2.1 envNonzeroExit 1 xorStdout rfl rfl,
   c2_amended.2.2 envLaunchFail rfl rfl⟩

/-- C6: on every exit path — success, build failure, run failure, even an
uncaught parse exception — the `finally` blocks delete the generated
temporary sources and the temporary executable before the operation
returns. -/
theorem c6_cleanup :
    (∀ (env : PointEnv) (fs0 : List String) (f : String), f ∈ SWEEP_TEMP_FILES →
      f ∉ (test_parameters_fs env fs0).2) ∧
    (∀ (env : BuildEnv) (g : String) (fs0 : List String),
      createTempMain g ∉ (create_optimized_binary_fs env g fs0).2 ∧
      createTempCompose g ∉ (create_optimized_binary_fs env g fs0).2) := by
  constructor
  · intro env fs0 f hf
    have hf' : f = "main_temp.cpp" ∨ f = "main_temp.elf" ∨ f = "gates/compose_temp.cpp" := by
      simpa [SWEEP_TEMP_FILES] using hf
    exact notMem_removeFile3 _ _ _ _ f hf'
  · intro env g fs0
    constructor
    · exact fun h =>
        notMem_removeFile_self _ (createTempMain g) (mem_of_mem_removeFile h)
    · exact fun h => notMem_removeFile_self _ (createTempCompose g) h

/-- C6, witness at a concrete failing build and a concrete gate. -/
theorem c6_witness :
    "main_temp.cpp" ∉ (test_parameters_fs ⟨true, false, true, .ran 0 ""⟩ []).2 ∧
    createTempMain "NOT" ∉ (create_optimized_binary_fs ⟨true, true, true⟩ "NOT" []).2 :=
  ⟨c6_cleanup.1 ⟨true, false, true, .ran 0 ""⟩ [] "main_temp.cpp" (by decide),
   (c6_cleanup.2 ⟨true, true, true⟩ "NOT" []).1⟩

/-- C10: a marker line preceded by a known gate header but holding no
`(number%` fragment makes `re.search(...).group(1)` raise an
`AttributeError`, which `except subprocess.CalledProcessError` does not
catch, so `test_parameters` returns no mapping for that grid point. -/
theorem c10_parse_raises :
    parseGateAccuracies (pySplitlines badXorCapture) = .error .attrError ∧
    test_parameters ⟨true, true, true, .ran 0 badXorCapture⟩ = .error .attrError :=
  ⟨rfl, rfl⟩

/-- C1, counterexample.  On the all-zero persisted matrix (the matrix of a
sweep whose every grid point failed) the running maximum never improves on
its initial value 0, so the selector returns `(threshold 0, delay 0)`,
which is not a grid point — 0 is neither a threshold nor a delay — and is
not the row-major-first grid point of maximal accuracy `(100, 32, 0)`. -/
theorem c1_counterexample :
    selectBest zeroMatrix = ⟨0, 0, 0⟩ ∧
    (matrixEntries zeroMatrix).find? (fun e => e.2.2 == matrixMax zeroMatrix) =
      some (100, 32, 0) ∧
    selectBest zeroMatrix ≠ ⟨100, 32, 0⟩ ∧
    (0 : Nat) ∉ THRESHOLDS ∧ (0 : Nat) ∉ DELAYS := by
  refine ⟨by decide, by decide, by decide, by decide, by decide⟩

/-- C3, counterexample.  The lookback uses `lines.index(line)`, the index
of the FIRST occurrence of the line's text.  In a capture whose two marker
lines are textually identical, the second marker (preceded by the AND
header) is resolved through the first occurrence's predecessor (the XOR
header), so AND gets no entry — although the line immediately preceding
the second marker does contain the AND delimiter. -/
theorem c3_counterexample :
    parseGateAccuracies dupCapture = .ok [("XOR", acc873)] ∧
    containsSub (dupCapture.getD 3 "") MARKER = true ∧
    findGate (dupCapture.getD 2 "") = some "AND" ∧
    ([("XOR", acc873)] : Dict).find? (fun p => p.1 == "AND") = none :=
  ⟨rfl, rfl, rfl, rfl⟩

/-- C4, counterexample.  A grid point whose run fails to launch raises an
uncaught `OSError`, aborting the whole sweep: no subsequent grid point is
processed and no row (not even the current one) is flushed — instead of
all gates receiving 0.0 for that point. -/
theorem c4_counterexample :
    (sweepRun sweepEnvLaunch).1 = [] ∧
    (sweepRun sweepEnvLaunch).2 = some .osError :=
  ⟨rfl, rfl⟩

/-- C5, counterexample.  On a marker line carrying a percentage that is
not preceded by an opening parenthesis, "the first decimal number that
appears immediately before a literal percent sign" is 11.1, but the code's
regex `\(([0-9.]+)%` requires the parenthesis and records 87.3. -/
theorem c5_counterexample :
    specFirstPercentNum strayPercentLine.data = some "11.1".data ∧
    parseGateAccuracies ["=== XOR gate ===", strayPercentLine] = .ok [("XOR", acc873)] ∧
    acc873 ≠ acc111 := by
  refine ⟨rfl, rfl, ?_⟩
  rw [acc873_eq, acc111_eq]
  norm_num

/-- C9: when the very first line of the capture contains the marker,
`lines.index(line) - 1` is `-1`, which Python indexing wraps to the LAST
line; a gate header on the final line is thus associated with a marker on
the first line. -/
theorem c9_wraparound :
    (∀ (l0 : String) (rest : List String), containsSub l0 MARKER = true →
      lookback (l0 :: rest) l0 = (l0 :: rest).getLastD "") ∧
    parseGateAccuracies [markerXorLine, "=== XOR gate ==="] = .ok [("XOR", acc873)] := by
  constructor
  · intro l0 rest _h
    have hidx : (l0 :: rest).findIdx (fun l => l == l0) = 0 := by
      simp [List.findIdx_cons]
    unfold lookback
    rw [hidx]
    show pyGet (l0 :: rest) (-1) = _
    unfold pyGet
    norm_num
    rw [List.getLast?_eq_getElem?]
    simp
  · rfl

/-- C9, witness at a concrete two-line capture. -/
theorem c9_witness :
    lookback [markerXorLine, "=== XOR gate ==="] markerXorLine =
      [markerXorLine, "=== XOR gate ==="].getLastD "" :=
  c9_wraparound.1 markerXorLine ["=== XOR gate ==="] (by decide)

/-! ### Selector lemmas (C1) -/

theorem selRow_entries (l : List (Nat × ℚ)) (t : Nat) :
    ∀ b : BestCfg, l.foldl (selectRowStep t) b =
      ((l.filter (fun p => p.1 < DELAYS.length)).map
        (fun p => (t, DELAYS.getD p.1 0, p.2))).foldl selStep b := by
  induction l with
  | nil => intro b; rfl
  | cons p l ih =>
    intro b
    by_cases h : p.1 < DELAYS.length
    · have hstep : selectRowStep t b p = selStep b (t, DELAYS.getD p.1 0, p.2) := by
        simp [selectRowStep, selStep, h]
      have hc : decide (p.1 < DELAYS.length) = true := by simpa using h
      simp only [List.foldl_cons, List.filter_cons, hc, if_true, List.map_cons,
        List.foldl_cons, hstep]
      exact ih _
    · have hstep : selectRowStep t b p = b := by
        simp [selectRowStep, h]
      have hc : decide (p.1 < DELAYS.length) = false := by simpa using h
      simp only [List.foldl_cons, List.filter_cons, hc, Bool.false_eq_true, if_false, hstep]
      exact ih _

theorem selectBest_entries (m : List (Nat × List ℚ)) :
    ∀ b : BestCfg, m.foldl selectRow b = selectEntries (matrixEntries m) b := by
  induction m with
  | nil => intro b; rfl
  | cons r m ih =>
    intro b
    have hrow : selectRow b r =
        (((r.2.enum).filter (fun p => p.1 < DELAYS.length)).map
          (fun p => (r.1, DELAYS.getD p.1 0, p.2))).foldl selStep b :=
      selRow_entries r.2.enum r.1 b
    simp only [List.foldl_cons, matrixEntries, selectEntries, List.flatMap_cons,
      List.foldl_append, hrow, ih]

theorem le_entriesMax (L : List (Nat × Nat × ℚ)) : ∀ q : ℚ, q ≤ entriesMax L q := by
  induction L with
  | nil => intro q; exact le_refl q
  | cons e L ih =>
    intro q
    exact le_trans (le_max_left q e.2.2) (ih (max q e.2.2))

theorem entriesMax_le_of {e : Nat × Nat × ℚ} (L : List (Nat × Nat × ℚ)) :
    ∀ q : ℚ, e ∈ L → e.2.2 ≤ entriesMax L q := by
  induction L with
  | nil => intro q h; exact absurd h (List.not_mem_nil e)
  | cons x L ih =>
    intro q h
    rcases List.mem_cons.mp h with rfl | h
    · exact le_trans (le_max_right q e.2.2) (le_entriesMax L (max q e.2.2))
    · exact ih (max q x.2.2) h

theorem selectEntries_of_le (L : List (Nat × Nat × ℚ)) :
    ∀ b : BestCfg, (∀ e ∈ L, e.2.2 ≤ b.accuracy) → selectEntries L b = b := by
  induction L with
  | nil => intro b _; rfl
  | cons e L ih =>
    intro b h
    have he : selStep b e = b := by
      have : ¬ e.2.2 > b.accuracy := not_lt.mpr (h e (List.mem_cons_self e L))
      simp [selStep, this]
    simp only [selectEntries, List.foldl_cons, he]
    exact ih b (fun x hx => h x (List.mem_cons_of_mem e hx))

theorem selStep_accuracy (b : BestCfg) (e : Nat × Nat × ℚ) :
    (selStep b e).accuracy = max b.accuracy e.2.2 := by
  by_cases h : e.2.2 > b.accuracy
  · simp [selStep, h, max_eq_right (le_of_lt h)]
  · simp [selStep, h, max_eq_left (not_lt.mp h)]

theorem selectEntries_finds (L : List (Nat × Nat × ℚ)) :
    ∀ b : BestCfg, b.accuracy < entriesMax L b.accuracy →
      ∃ e, L.find? (fun e => e.2.2 == entriesMax L b.accuracy) = some e ∧
        selectEntries L b = ⟨e.1, e.2.1, e.2.2⟩ := by
  induction L with
  | nil => intro b h; exact absurd h (lt_irrefl _)
  | cons e0 L ih =>
    intro b h
    have hM : entriesMax (e0 :: L) b.accuracy = entriesMax L (max b.accuracy e0.2.2) := rfl
    by_cases hv : e0.2.2 = entriesMax (e0 :: L) b.accuracy
    · refine ⟨e0, ?_, ?_⟩
      · simp [List.find?_cons, hv]
      · have hbv : b.accuracy < e0.2.2 := hv ▸ h
        have hsel : selStep b e0 = ⟨e0.1, e0.2.1, e0.2.2⟩ := by simp [selStep, hbv]
        have hle : ∀ x ∈ L, x.2.2 ≤ (⟨e0.1, e0.2.1, e0.2.2⟩ : BestCfg).accuracy := by
          intro x hx
          have : x.2.2 ≤ entriesMax L (max b.accuracy e0.2.2) :=
            entriesMax_le_of L (max b.accuracy e0.2.2) hx
          rw [← hM, ← hv] at this
          exact this
        calc selectEntries (e0 :: L) b = selectEntries L (selStep b e0) := rfl
          _ = selStep b e0 := selectEntries_of_le L _ (hsel ▸ hle)
          _ = _ := hsel
    · have hv' : e0.2.2 < entriesMax (e0 :: L) b.accuracy := by
        refine lt_of_le_of_ne ?_ hv
        rw [hM]
        exact le_trans (le_max_right b.accuracy e0.2.2) (le_entriesMax L _)
      have hacc : (selStep b e0).accuracy = max b.accuracy e0.2.2 := selStep_accuracy b e0
      have hM' : entriesMax L (selStep b e0).accuracy = entriesMax (e0 :: L) b.accuracy := by
        rw [hacc, hM]
      have hlt : (selStep b e0).accuracy < entriesMax L (selStep b e0).accuracy := by
        rw [hM', hacc]
        exact max_lt h hv'
      obtain ⟨e, hfind, hsel⟩ := ih (selStep b e0) hlt
      refine ⟨e, ?_, hsel⟩
      rw [hM'] at hfind
      have hne : (e0.2.2 == entriesMax (e0 :: L) b.accuracy) = false := beq_false_of_ne hv
      simp [List.find?_cons, hne, hfind]

theorem enumFrom_fst_lt (l : List ℚ) : ∀ k, ∀ p ∈ l.enumFrom k, p.1 < k + l.length := by
  induction l with
  | nil => intro k p h; exact absurd h (List.not_mem_nil p)
  | cons x l ih =>
    intro k p h
    rcases List.mem_cons.mp h with rfl | h
    · simp
    · have := ih (k + 1) p h
      simpa [Nat.add_comm, Nat.add_left_comm] using this

theorem foldlMax_enumFrom (l : List ℚ) : ∀ (k : Nat) (q : ℚ),
    (l.enumFrom k).foldl (fun acc p => max acc p.2) q = l.foldl max q := by
  induction l with
  | nil => intro k q; rfl
  | cons x l ih => intro k q; simpa using ih (k + 1) (max q x)

theorem rowMax_entries (r : Nat × List ℚ) (hlen : r.2.length ≤ DELAYS.length) :
    ∀ q : ℚ, r.2.foldl max q =
      entriesMax (((r.2.enum).filter (fun p => p.1 < DELAYS.length)).map
        (fun p => (r.1, DELAYS.getD p.1 0, p.2))) q := by
  intro q
  have hfil : (r.2.enum).filter (fun p => p.1 < DELAYS.length) = r.2.enum := by
    refine List.filter_eq_self.mpr ?_
    intro p hp
    have := enumFrom_fst_lt r.2 0 p hp
    simpa using lt_of_lt_of_le (by simpa using this) hlen
  rw [hfil]
  unfold entriesMax
  rw [List.foldl_map]
  exact (foldlMax_enumFrom r.2 0 q).symm

theorem matrixMax_entries (m : List (Nat × List ℚ))
    (hlen : ∀ r ∈ m, r.2.length ≤ DELAYS.length) :
    matrixMax m = entriesMax (matrixEntries m) 0 := by
  suffices h : ∀ (m : List (Nat × List ℚ)), (∀ r ∈ m, r.2.length ≤ DELAYS.length) →
      ∀ q : ℚ, m.foldl (fun q r => r.2.foldl max q) q = entriesMax (matrixEntries m) q by
    exact h m hlen 0
  clear hlen m
  intro m
  induction m with
  | nil => intro _ q; rfl
  | cons r m ih =>
    intro hlen q
    have hr : r.2.length ≤ DELAYS.length := hlen r (List.mem_cons_self r m)
    simp only [List.foldl_cons, matrixEntries, List.flatMap_cons]
    rw [rowMax_entries r hr q]
    unfold entriesMax
    rw [List.foldl_append]
    exact ih (fun x hx => hlen x (List.mem_cons_of_mem r hx)) _

/-- C1, amended: whenever the matrix holds a positive accuracy anywhere,
the selector's record carries exactly the maximal accuracy of the matrix
and is the row-major-first grid point attaining it.  (When the maximum is
0.0 the record stays at its `(0, 0, 0.0)` initialisation, which is not a
grid point — see the counterexample.) -/
theorem c1_selector_amended (m : List (Nat × List ℚ))
    (hlen : ∀ r ∈ m, r.2.length ≤ DELAYS.length) (hpos : 0 < matrixMax m) :
    ∃ e, (matrixEntries m).find? (fun e => e.2.2 == matrixMax m) = some e ∧
      selectBest m = ⟨e.1, e.2.1, e.2.2⟩ ∧ (selectBest m).accuracy = matrixMax m := by
  have hmm : matrixMax m = entriesMax (matrixEntries m) 0 := matrixMax_entries m hlen
  have h0 : ((⟨0, 0, 0⟩ : BestCfg)).accuracy = 0 := rfl
  have hlt : (⟨0, 0, 0⟩ : BestCfg).accuracy <
      entriesMax (matrixEntries m) (⟨0, 0, 0⟩ : BestCfg).accuracy := by
    rw [h0, ← hmm]
    exact hpos
  obtain ⟨e, hfind, hsel⟩ := selectEntries_finds (matrixEntries m) ⟨0, 0, 0⟩ hlt
  have hbest : selectBest m = selectEntries (matrixEntries m) ⟨0, 0, 0⟩ :=
    selectBest_entries m ⟨0, 0, 0⟩
  have hfind' : (matrixEntries m).find? (fun e => e.2.2 == matrixMax m) = some e := by
    rw [hmm]
    simpa [h0] using hfind
  refine ⟨e, hfind', ?_, ?_⟩
  · rw [hbest]
    simpa [h0] using hsel
  · have hpe : (e.2.2 == matrixMax m) = true :=
      @List.find?_some _ (fun e => e.2.2 == matrixMax m) e (matrixEntries m) hfind'
    have : e.2.2 = matrixMax m := by simpa using hpe
    rw [hbest, hsel]
    exact this

/-! ### Parser refinement lemmas (C3, C5) -/

theorem findIdx_eq_self (l : List String) : ∀ j, j < l.length →
    (∀ i, i < j → l.getD i "" ≠ l.getD j "") →
    l.findIdx (fun x => x == l.getD j "") = j := by
  induction l with
  | nil => intro j hj _; exact absurd hj (by simp)
  | cons x l ih =>
    intro j hj hne
    cases j with
    | zero => simp [List.findIdx_cons]
    | succ j' =>
      have hx : x ≠ (x :: l).getD (j' + 1) "" := hne 0 (Nat.succ_pos j')
      have hbeq : (x == (x :: l).getD (j' + 1) "") = false := beq_false_of_ne hx
      rw [List.getD_cons_succ] at hbeq ⊢
      rw [List.findIdx_cons, hbeq]
      simp only [cond_false]
      have hj' : j' < l.length := Nat.lt_of_succ_lt_succ (by simpa using hj)
      have hne' : ∀ i, i < j' → l.getD i "" ≠ l.getD j' "" := by
        intro i hi
        have := hne (i + 1) (Nat.succ_lt_succ hi)
        simpa [List.getD_cons_succ] using this
      rw [ih j' hj' hne']

theorem parseStep_eq_specStep (lines : List String) (k : Nat) (line : String)
    (hklen : k < lines.length) (hget : lines.getD k "" = line)
    (h0 : containsSub (lines.getD 0 "") MARKER = false)
    (hnodup : ∀ i j, i < j → j < lines.length →
      containsSub (lines.getD j "") MARKER = true → lines.getD i "" ≠ lines.getD j "") :
    ∀ acc, parseStep lines acc line = specStep lines acc k line := by
  intro acc
  by_cases hm : containsSub line MARKER = true
  · have hk0 : k ≠ 0 := by
      intro hkz
      rw [hkz] at hget
      rw [hget] at h0
      rw [hm] at h0
      exact Bool.noConfusion h0
    have hidx : lines.findIdx (fun x => x == line) = k := by
      rw [← hget]
      exact findIdx_eq_self lines k hklen
        (fun i hi => hnodup i k hi hklen (hget ▸ hm))
    have hlb : lookback lines line = lines.getD (k - 1) "" := by
      unfold lookback
      rw [hidx]
      obtain ⟨k', rfl⟩ : ∃ k', k = k' + 1 :=
        ⟨k - 1, (Nat.succ_pred_eq_of_pos (Nat.pos_of_ne_zero hk0)).symm⟩
      have hcast : ((k' + 1 : Nat) : Int) - 1 = (k' : Int) := by push_cast; ring
      rw [hcast]
      unfold pyGet
      rw [if_neg (by omega)]
      simp
    unfold parseStep specStep
    rw [hlb]
    simp only [hm, if_true, hk0, if_false]
  · have hm' : containsSub line MARKER = false := by
      cases hcc : containsSub line MARKER
      · rfl
      · exact absurd hcc hm
    unfold parseStep specStep
    simp only [hm', Bool.false_eq_true, if_false]

theorem c3_parse_refines (lines : List String)
    (h0 : containsSub (lines.getD 0 "") MARKER = false)
    (hnodup : ∀ i j, i < j → j < lines.length →
      containsSub (lines.getD j "") MARKER = true → lines.getD i "" ≠ lines.getD j "") :
    parseGateAccuracies lines = specParse lines := by
  unfold parseGateAccuracies specParse
  suffices haux : ∀ (suf : List String) (k : Nat), lines.drop k = suf →
      ∀ acc, suf.foldlM (fun acc line => parseStep lines acc line) acc
        = (suf.enumFrom k).foldlM (fun acc p => specStep lines acc p.1 p.2) acc by
    exact haux lines 0 rfl []
  intro suf
  induction suf with
  | nil => intro k _ acc; rfl
  | cons line suf ih =>
    intro k hk acc
    have hklen : k < lines.length := by
      by_contra hh
      rw [List.drop_eq_nil_of_le (Nat.le_of_not_lt hh)] at hk
      exact List.noConfusion hk
    have hdec := List.drop_eq_getElem_cons hklen
    rw [hk] at hdec
    have hget : lines.getD k "" = line := by
      have hhead : lines[k] = line := (List.cons.injEq _ _ _ _ ▸ hdec.symm).1
      rw [List.getD_eq_getElem?_getD, List.getElem?_eq_getElem hklen, hhead]
      rfl
    have hdrop : lines.drop (k + 1) = suf := (List.cons.injEq _ _ _ _ ▸ hdec.symm).2
    have hstep := parseStep_eq_specStep lines k line hklen hget h0 hnodup acc
    rw [List.enumFrom_cons]
    simp only [List.foldlM_cons]
    rw [hstep]
    cases hres : specStep lines acc k line with
    | error e => simp [Bind.bind, Except.bind]
    | ok acc' =>
      simp only [Bind.bind, Except.bind]
      exact ih (k + 1) hdrop acc'

/-- C3, witness for the amended theorem: a duplicate-free capture with a
header, then a marker. -/
theorem c3_witness :
    parseGateAccuracies ["=== XOR gate ===", markerXorLine] =
      specParse ["=== XOR gate ===", markerXorLine] :=
  c3_parse_refines ["=== XOR gate ===", markerXorLine] (by decide)
    (by
      intro i j hij hj _
      have hj2 : j < 2 := by simpa using hj
      interval_cases j
      · omega
      · interval_cases i
        · decide)

theorem searchParenNum_leftmost : ∀ cs : List Char,
    searchParenNum cs = (List.range cs.length).findSome? (parenNumAt cs) := by
  intro cs
  induction cs with
  | nil => rfl
  | cons c cs ih =>
    show searchParenNum (c :: cs) = (List.range (cs.length + 1)).findSome? (parenNumAt (c :: cs))
    rw [List.range_succ_eq_map, List.findSome?_cons]
    have hdrop : ∀ i, parenNumAt (c :: cs) (i + 1) = parenNumAt cs i := fun i => rfl
    cases hmatch : matchParenAt (c :: cs) with
    | some run =>
      have h0 : parenNumAt (c :: cs) 0 = some run := hmatch
      rw [h0]
      show (match matchParenAt (c :: cs) with
        | some run => some run
        | none => searchParenNum cs) = some run
      rw [hmatch]
    | none =>
      have h0 : parenNumAt (c :: cs) 0 = none := hmatch
      rw [h0]
      show (match matchParenAt (c :: cs) with
        | some run => some run
        | none => searchParenNum cs) = _
      rw [hmatch, List.findSome?_map]
      have : (parenNumAt (c :: cs) ∘ fun a => a + 1) = parenNumAt cs := funext hdrop
      rw [this]
      exact ih

/-- C5, amended: the recorded accuracy is the group of the LEFTMOST match
of "an opening parenthesis, then a maximal nonempty digit-and-dot run,
then a percent sign" — i.e. the first decimal number immediately after an
opening parenthesis and immediately before a percent sign (and not merely
before a percent sign, see the counterexample); on the claim's concrete
scenario this records `{"XOR": 87.3}`. -/
theorem c5_amended :
    (∀ line : List Char,
      searchParenNum line = (List.range line.length).findSome? (parenNumAt line)) ∧
    parseGateAccuracies ["=== XOR gate ===", markerXorLine] = .ok [("XOR", acc873)] ∧
    acc873 = 87.3 :=
  ⟨searchParenNum_leftmost, rfl, acc873_eq⟩

/-! ### Sweep lemmas (C4, C7) -/

theorem mapM_ok_eq (f : Nat → Except PyExn Dict) (l : List Nat) :
    ∀ ds, l.mapM f = .ok ds → ds = l.map (fun x => exValD (f x)) := by
  induction l with
  | nil =>
    intro ds h
    simp only [List.mapM_nil, pure] at h
    cases h
    rfl
  | cons x l ih =>
    intro ds h
    rw [List.mapM_cons] at h
    cases hfx : f x with
    | error e => rw [hfx] at h; exact absurd h (by simp [Bind.bind, Except.bind])
    | ok v =>
      rw [hfx] at h
      cases hml : l.mapM f with
      | error e =>
        rw [hml] at h
        exact absurd h (by simp [Bind.bind, Except.bind, pure, Except.pure])
      | ok vs =>
        rw [hml] at h
        have : ds = v :: vs := by
          simpa [Bind.bind, Except.bind, pure, Except.pure] using h.symm
        rw [this, ih vs hml]
        simp [exValD, hfx]

theorem mapM_ok_of (f : Nat → Except PyExn Dict) (l : List Nat)
    (h : ∀ x ∈ l, ∃ v, f x = .ok v) :
    l.mapM f = .ok (l.map (fun x => exValD (f x))) := by
  induction l with
  | nil => rfl
  | cons x l ih =>
    obtain ⟨v, hv⟩ := h x (List.mem_cons_self x l)
    rw [List.mapM_cons, hv, ih (fun y hy => h y (List.mem_cons_of_mem x hy))]
    simp [Bind.bind, Except.bind, pure, Except.pure, exValD, hv]

theorem rowDicts_ok (env : Nat → Nat → PointEnv) (t : Nat) (ds : List Dict)
    (h : rowDicts env t = .ok ds) :
    ds = DELAYS.map (fun d => pointDict env t d) :=
  mapM_ok_eq (fun d => test_parameters (env t d)) DELAYS ds h

theorem rowDicts_ok_of (env : Nat → Nat → PointEnv) (t : Nat)
    (h : ∀ d ∈ DELAYS, ∃ v, test_parameters (env t d) = .ok v) :
    rowDicts env t = .ok (DELAYS.map (fun d => pointDict env t d)) :=
  mapM_ok_of (fun d => test_parameters (env t d)) DELAYS h

theorem sweep_foldl_complete (env : Nat → Nat → PointEnv) (ts : List Nat) :
    ∀ acc, (ts.foldl (sweepStep env) (acc, none)).2 = none →
      (ts.foldl (sweepStep env) (acc, none)).1 =
        acc ++ ts.map (fun t => (t, DELAYS.map (fun d => pointDict env t d))) := by
  induction ts with
  | nil => intro acc _; simp
  | cons t ts ih =>
    intro acc h
    cases hrow : rowDicts env t with
    | ok ds =>
      have hstep : sweepStep env (acc, none) t = (acc ++ [(t, ds)], none) := by
        simp [sweepStep, hrow]
      rw [List.foldl_cons, hstep] at h ⊢
      rw [ih (acc ++ [(t, ds)]) h, rowDicts_ok env t ds hrow]
      simp
    | error e =>
      exfalso
      have hstep : sweepStep env (acc, none) t = (acc, some e) := by
        simp [sweepStep, hrow]
      rw [List.foldl_cons, hstep] at h
      have hstuck : ∀ (ts' : List Nat) (st : List (Nat × List Dict) × Option PyExn)
          (e' : PyExn), st.2 = some e' → ts'.foldl (sweepStep env) st = st := by
        intro ts'
        induction ts' with
        | nil => intro st e' _; rfl
        | cons u ts' ih' =>
          intro st e' hst
          have : sweepStep env st u = st := by
            obtain ⟨a, b⟩ := st
            simp only at hst
            rw [hst]
            rfl
          rw [List.foldl_cons, this]
          exact ih' st e' hst
      rw [hstuck ts (acc, some e) e rfl] at h
      exact Option.noConfusion h

theorem sweep_complete (env : Nat → Nat → PointEnv) (h : (sweepRun env).2 = none) :
    (sweepRun env).1 =
      THRESHOLDS.map (fun t => (t, DELAYS.map (fun d => pointDict env t d))) := by
  have := sweep_foldl_complete env THRESHOLDS [] h
  simpa [sweepRun] using this

theorem sweep_completes_of (env : Nat → Nat → PointEnv)
    (h : ∀ t ∈ THRESHOLDS, ∀ d ∈ DELAYS, ∃ v, test_parameters (env t d) = .ok v) :
    (sweepRun env).2 = none := by
  suffices haux : ∀ (ts : List Nat), (∀ t ∈ ts, ∀ d ∈ DELAYS, ∃ v,
      test_parameters (env t d) = .ok v) →
      ∀ acc, (ts.foldl (sweepStep env) (acc, none)).2 = none by
    exact haux THRESHOLDS h []
  intro ts
  induction ts with
  | nil => intro _ acc; rfl
  | cons t ts ih =>
    intro hts acc
    have hrow : rowDicts env t = .ok (DELAYS.map (fun d => pointDict env t d)) :=
      rowDicts_ok_of env t (hts t (List.mem_cons_self t ts))
    have hstep : sweepStep env (acc, none) t =
        (acc ++ [(t, DELAYS.map (fun d => pointDict env t d))], none) := by
      simp [sweepStep, hrow]
    rw [List.foldl_cons, hstep]
    exact ih (fun u hu => hts u (List.mem_cons_of_mem t hu)) _

theorem gateMatrix_complete (env : Nat → Nat → PointEnv)
    (h : (sweepRun env).2 = none) (g : String) :
    gateMatrix env g =
      THRESHOLDS.map (fun t => (t, DELAYS.map (fun d => dictGetD (pointDict env t d) g 0))) := by
  unfold gateMatrix
  rw [sweep_complete env h]
  simp [gateRow, List.map_map, Function.comp]

/-- C7: for every completed sweep, every gate's persisted matrix lists one
row per threshold, the row thresholds are exactly the declared inclusive
progression 100, 125, ..., 300 in strictly ascending order, and each row
holds one accuracy per delay in the fixed delay-list order. -/
theorem c7_matrix_shape (env : Nat → Nat → PointEnv)
    (hdone : (sweepRun env).2 = none) (g : String) :
    gateMatrix env g =
      THRESHOLDS.map (fun t => (t, DELAYS.map (fun d => dictGetD (pointDict env t d) g 0))) ∧
    (gateMatrix env g).map Prod.fst = THRESHOLDS ∧
    List.Chain' (· < ·) ((gateMatrix env g).map Prod.fst) ∧
    THRESHOLDS = [100, 125, 150, 175, 200, 225, 250, 275, 300] ∧
    ∀ r ∈ gateMatrix env g, r.2.length = DELAYS.length := by
  have h1 := gateMatrix_complete env hdone g
  have h2 : (gateMatrix env g).map Prod.fst = THRESHOLDS := by
    rw [h1, List.map_map]
    rw [show (Prod.fst ∘ fun t =>
      (t, DELAYS.map fun d => dictGetD (pointDict env t d) g 0)) = id from rfl]
    exact List.map_id THRESHOLDS
  refine ⟨h1, h2, ?_, by decide, ?_⟩
  · rw [h2, show THRESHOLDS = [100, 125, 150, 175, 200, 225, 250, 275, 300] by decide]
    norm_num [List.chain'_cons]
  · intro r hr
    rw [h1] at hr
    obtain ⟨t, _, rfl⟩ := List.mem_map.mp hr
    simp

/-- C7, witness: a sweep in which every point builds, runs and parses. -/
theorem c7_witness :
    gateMatrix (fun _ _ => envOkEmpty) "XOR" =
      THRESHOLDS.map (fun t => (t, DELAYS.map
        (fun d => dictGetD (pointDict (fun _ _ => envOkEmpty) t d) "XOR" 0))) ∧
    (gateMatrix (fun _ _ => envOkEmpty) "XOR").map Prod.fst = THRESHOLDS ∧
    List.Chain' (· < ·) ((gateMatrix (fun _ _ => envOkEmpty) "XOR").map Prod.fst) ∧
    THRESHOLDS = [100, 125, 150, 175, 200, 225, 250, 275, 300] ∧
    ∀ r ∈ gateMatrix (fun _ _ => envOkEmpty) "XOR", r.2.length = DELAYS.length :=
  c7_matrix_shape (fun _ _ => envOkEmpty) rfl "XOR"

/-- C4, amended: a build failure is caught and degrades gracefully — all
gates receive 0.0 at that grid point and, provided no grid point raises an
uncaught exception (launch failure or parse error), the sweep completes
with every row flushed.  (An uncaught run failure aborts the sweep — see
the counterexample.) -/
theorem c4_amended (env : Nat → Nat → PointEnv)
    (hnoexn : ∀ t ∈ THRESHOLDS, ∀ d ∈ DELAYS, ∃ v, test_parameters (env t d) = .ok v)
    (t0 d0 : Nat) (ht0 : t0 ∈ THRESHOLDS) (hd0 : d0 ∈ DELAYS)
    (hfail : buildFailed (env t0 d0) = true) :
    (sweepRun env).2 = none ∧
    (∀ g, gateMatrix env g =
      THRESHOLDS.map (fun t => (t, DELAYS.map (fun d => dictGetD (pointDict env t d) g 0)))) ∧
    (∀ g, dictGetD (pointDict env t0 d0) g 0 = 0) := by
  have hdone := sweep_completes_of env hnoexn
  refine ⟨hdone, fun g => gateMatrix_complete env hdone g, ?_⟩
  intro g
  have : pointDict env t0 d0 = [] := by
    unfold pointDict
    rw [test_parameters_buildFail (env t0 d0) hfail]
    rfl
  rw [this]
  rfl

/-- C4, witness: every grid point fails its build; the sweep completes,
flushes all rows, and every gate receives 0 everywhere. -/
theorem c4_witness :
    (sweepRun sweepEnvBuildFail).2 = none ∧
    (∀ g, gateMatrix sweepEnvBuildFail g = THRESHOLDS.map (fun t => (t, DELAYS.map
      (fun d => dictGetD (pointDict sweepEnvBuildFail t d) g 0)))) ∧
    (∀ g, dictGetD (pointDict sweepEnvBuildFail 100 32) g 0 = 0) :=
  c4_amended sweepEnvBuildFail (fun _ _ _ _ => ⟨[], rfl⟩) 100 32 (by decide) (by decide) rfl

/-! ### Substitution lemmas (C8): prefixes, matches -/

theorem takeWhile_append_all (p : Char → Bool) (b : List Char)
    (hb : ∀ c ∈ b.head?, p c = false) :
    ∀ a : List Char, (∀ c ∈ a, p c = true) →
      (a ++ b).takeWhile p = a ∧ (a ++ b).dropWhile p = b := by
  intro a
  induction a with
  | nil =>
    intro _
    simp only [List.nil_append]
    cases b with
    | nil => simp
    | cons x bs =>
      have hx : p x = false := hb x rfl
      simp [List.takeWhile_cons, List.dropWhile_cons, hx]
  | cons c a ih =>
    intro ha
    have hc : p c = true := ha c (by simp)
    have ih' := ih (fun d hd => ha d (by simp [hd]))
    simp [List.takeWhile_cons, List.dropWhile_cons, hc, ih'.1, ih'.2]

theorem dropWhile_head_false (p : Char → Bool) (l : List Char) :
    ∀ c ∈ (l.dropWhile p).head?, p c = false := by
  induction l with
  | nil => intro c hc; simp at hc
  | cons x xs ih =>
    intro c hc
    rw [List.dropWhile_cons] at hc
    by_cases hx : p x = true
    · rw [if_pos hx] at hc
      exact ih c hc
    · have hx' : p x = false := by simpa using hx
      rw [if_neg (by simp [hx'])] at hc
      simp only [List.head?_cons, Option.mem_def, Option.some.injEq] at hc
      exact hc ▸ hx'

theorem isPrefixOf_append_self (l x : List Char) : l.isPrefixOf (l ++ x) = true := by
  rw [List.isPrefixOf_iff_prefix]
  exact List.prefix_append l x

theorem eq_append_drop_of_isPrefixOf {l cs : List Char} (h : l.isPrefixOf cs = true) :
    cs = l ++ cs.drop l.length := by
  obtain ⟨t, rfl⟩ := List.isPrefixOf_iff_prefix.mp h
  rw [List.drop_left]

theorem not_isPrefixOf_of_head_ne {l m : List Char} {x c : Char}
    (hl : l.head? = some x) (hm : m.head? = some c) (hne : x ≠ c) :
    l.isPrefixOf m = false := by
  cases l with
  | nil => simp at hl
  | cons y ys =>
    cases m with
    | nil => simp at hm
    | cons d ds =>
      simp only [List.head?_cons, Option.some.injEq] at hl hm
      subst hl; subst hm
      simp [List.isPrefixOf, beq_false_of_ne hne]

theorem head_eq_of_isPrefixOf {l m : List Char} {x : Char}
    (hl : l.head? = some x) (h : l.isPrefixOf m = true) : m.head? = some x := by
  cases l with
  | nil => simp at hl
  | cons y ys =>
    cases m with
    | nil => simp [List.isPrefixOf] at h
    | cons d ds =>
      simp only [List.head?_cons, Option.some.injEq] at hl ⊢
      simp only [List.isPrefixOf, Bool.and_eq_true, beq_iff_eq] at h
      rw [← hl, h.1]

theorem isPrefixOf_append_iff_of_le {x m b : List Char} (h : x.length ≤ m.length) :
    x.isPrefixOf (m ++ b) = x.isPrefixOf m := by
  cases hx : x.isPrefixOf m with
  | true =>
    obtain ⟨t, rfl⟩ := List.isPrefixOf_iff_prefix.mp hx
    rw [List.append_assoc]
    exact isPrefixOf_append_self x (t ++ b)
  | false =>
    cases hxx : x.isPrefixOf (m ++ b) with
    | false => rfl
    | true =>
      exfalso
      have hpre := List.isPrefixOf_iff_prefix.mp hxx
      have htake := List.prefix_iff_eq_take.mp hpre
      rw [List.take_append_of_le_length h] at htake
      have : x <+: m := List.prefix_iff_eq_take.mpr htake
      rw [List.isPrefixOf_iff_prefix.mpr this] at hx
      exact Bool.noConfusion hx

theorem isPrefixOf_append_split {l a b : List Char} (h : l.isPrefixOf (a ++ b) = true)
    (hlen : a.length < l.length) :
    a = l.take a.length ∧ (l.drop a.length).isPrefixOf b = true := by
  have hpre := List.isPrefixOf_iff_prefix.mp h
  have htake := List.prefix_iff_eq_take.mp hpre
  have ha : l.take a.length = a := by
    rw [htake, List.take_take, Nat.min_eq_left (le_of_lt hlen), List.take_left]
  refine ⟨ha.symm, ?_⟩
  have hsplit : l = a ++ l.drop a.length := by
    conv_lhs => rw [← List.take_append_drop a.length l]
    rw [ha]
  obtain ⟨t, ht⟩ := hpre
  rw [hsplit, List.append_assoc] at ht
  have hb : l.drop a.length ++ t = b := List.append_cancel_left ht
  rw [List.isPrefixOf_iff_prefix, ← hb]
  exact List.prefix_append _ t

theorem matchDirAt_some_parts {lit cs run rest : List Char}
    (h : matchDirAt lit cs = some (run, rest)) :
    cs = lit ++ run ++ rest ∧ run ≠ [] ∧ (∀ c ∈ run, c.isDigit = true) ∧
      (∀ c ∈ rest.head?, c.isDigit = false) := by
  unfold matchDirAt at h
  split at h
  next hpre =>
    split at h
    · exact absurd h (by simp)
    next hrun =>
      simp only [Option.some.injEq, Prod.mk.injEq] at h
      obtain ⟨hr1, hr2⟩ := h
      refine ⟨?_, ?_, ?_, ?_⟩
      · rw [List.append_assoc, ← hr1, ← hr2, List.takeWhile_append_dropWhile]
        exact eq_append_drop_of_isPrefixOf hpre
      · rw [← hr1]
        simpa using hrun
      · intro c hc
        rw [← hr1] at hc
        exact List.mem_takeWhile_imp hc
      · rw [← hr2]
        exact dropWhile_head_false Char.isDigit _
  · exact absurd h (by simp)

theorem matchDirAt_intro (lit run rest : List Char) (hrun : run ≠ [])
    (hdig : ∀ c ∈ run, c.isDigit = true) (hrest : ∀ c ∈ rest.head?, c.isDigit = false) :
    matchDirAt lit (lit ++ run ++ rest) = some (run, rest) := by
  unfold matchDirAt
  rw [List.append_assoc]
  rw [isPrefixOf_append_self]
  simp only [if_true]
  rw [List.drop_left]
  obtain ⟨ht, hd⟩ := takeWhile_append_all Char.isDigit rest hrest run hdig
  rw [ht, hd]
  simp [hrun]

theorem matchDirAt_none_of_no_pre {lit cs : List Char}
    (h : lit.isPrefixOf cs = false) : matchDirAt lit cs = none := by
  unfold matchDirAt
  simp [h]

theorem matchDirAt_none_of_no_digit {lit cs : List Char}
    (hpre : lit.isPrefixOf cs = true)
    (hhead : ∀ c ∈ (cs.drop lit.length).head?, c.isDigit = false) :
    matchDirAt lit cs = none := by
  unfold matchDirAt
  rw [hpre]
  simp only [if_true]
  have htw : (cs.drop lit.length).takeWhile Char.isDigit = [] := by
    cases hd : cs.drop lit.length with
    | nil => rfl
    | cons x xs =>
      have hx : x.isDigit = false := by
        have := hhead x
        rw [hd] at this
        exact this rfl
      rw [List.takeWhile_cons, hx]
      simp
  rw [htw]
  simp

theorem matchLitAt_some_parts {p cs rest : List Char}
    (h : matchLitAt p cs = some rest) : cs = p ++ rest ∧ p ≠ [] := by
  unfold matchLitAt at h
  split at h
  · exact absurd h (by simp)
  next hp =>
    split at h
    next hpre =>
      simp only [Option.some.injEq] at h
      constructor
      · rw [← h]
        exact eq_append_drop_of_isPrefixOf hpre
      · intro hnil
        rw [hnil] at hp
        simp at hp
    · exact absurd h (by simp)

theorem matchLitAt_intro (p rest : List Char) (hp : p ≠ []) :
    matchLitAt p (p ++ rest) = some rest := by
  unfold matchLitAt
  rw [if_neg (by simpa using hp), isPrefixOf_append_self]
  simp [List.drop_left]

theorem matchLitAt_none_of_no_pre {p cs : List Char}
    (h : p.isPrefixOf cs = false) : matchLitAt p cs = none := by
  unfold matchLitAt
  split
  · rfl
  · simp [h]

theorem subDir_head (lit val : List Char) {h0 : Char} (hlit : lit.head? = some h0)
    (cs : List Char) : (subDir lit val cs).head? = cs.head? := by
  cases cs with
  | nil => simp [subDir]
  | cons c cs =>
    rw [subDir]
    cases hm : matchDirAt lit (c :: cs) with
    | some pr =>
      have hpre := (matchDirAt_some_parts hm).1
      have hc : (c :: cs).head? = some h0 := by
        rw [hpre]
        cases lit with
        | nil => simp at hlit
        | cons y ys => simpa using hlit
      rw [hc]
      cases lit with
      | nil => simp at hlit
      | cons y ys => simpa using hlit
    | none => simp

theorem subLit_head (p r : List Char) {h0 : Char} (hp : p.head? = some h0)
    (hr : r.head? = some h0) (cs : List Char) :
    (subLit p r cs).head? = cs.head? := by
  cases cs with
  | nil => simp [subLit]
  | cons c cs =>
    rw [subLit]
    cases hm : matchLitAt p (c :: cs) with
    | some rest =>
      have hpre := (matchLitAt_some_parts hm).1
      have hc : (c :: cs).head? = some h0 := by
        rw [hpre]
        cases p with
        | nil => simp at hp
        | cons y ys => simpa using hp
      rw [hc]
      cases r with
      | nil => simp at hr
      | cons y ys => simpa using hr
    | none => simp

theorem subDir_append_free (lit val : List Char) {h0 : Char}
    (hlit : lit.head? = some h0) (b : List Char) :
    ∀ a : List Char, h0 ∉ a → subDir lit val (a ++ b) = a ++ subDir lit val b := by
  intro a
  induction a with
  | nil => intro _; rfl
  | cons c a ih =>
    intro hfree
    have hc : h0 ≠ c := fun hh => hfree (hh ▸ List.mem_cons_self c a)
    have hnp : lit.isPrefixOf (c :: (a ++ b)) = false :=
      not_isPrefixOf_of_head_ne hlit (by simp) hc
    rw [List.cons_append, subDir]
    cases hm : matchDirAt lit (c :: (a ++ b)) with
    | some pr =>
      exfalso
      rw [matchDirAt_none_of_no_pre hnp] at hm
      exact Option.noConfusion hm
    | none =>
      rw [ih (fun hh => hfree (List.mem_cons_of_mem c hh))]
      rfl

theorem subLit_append_free (p r : List Char) {h0 : Char}
    (hp : p.head? = some h0) (b : List Char) :
    ∀ a : List Char, h0 ∉ a → subLit p r (a ++ b) = a ++ subLit p r b := by
  intro a
  induction a with
  | nil => intro _; rfl
  | cons c a ih =>
    intro hfree
    have hc : h0 ≠ c := fun hh => hfree (hh ▸ List.mem_cons_self c a)
    have hnp : p.isPrefixOf (c :: (a ++ b)) = false :=
      not_isPrefixOf_of_head_ne hp (by simp) hc
    rw [List.cons_append, subLit]
    cases hm : matchLitAt p (c :: (a ++ b)) with
    | some rest =>
      exfalso
      rw [matchLitAt_none_of_no_pre hnp] at hm
      exact Option.noConfusion hm
    | none =>
      rw [ih (fun hh => hfree (List.mem_cons_of_mem c hh))]
      rfl

theorem dirMatches_append_free (lit : List Char) {h0 : Char}
    (hlit : lit.head? = some h0) (b : List Char) :
    ∀ a : List Char, h0 ∉ a → dirMatches lit (a ++ b) = dirMatches lit b := by
  intro a
  induction a with
  | nil => intro _; rfl
  | cons c a ih =>
    intro hfree
    have hc : h0 ≠ c := fun hh => hfree (hh ▸ List.mem_cons_self c a)
    have hnp : lit.isPrefixOf (c :: (a ++ b)) = false :=
      not_isPrefixOf_of_head_ne hlit (by simp) hc
    rw [List.cons_append, dirMatches]
    cases hm : matchDirAt lit (c :: (a ++ b)) with
    | some pr =>
      exfalso
      rw [matchDirAt_none_of_no_pre hnp] at hm
      exact Option.noConfusion hm
    | none =>
      exact ih (fun hh => hfree (List.mem_cons_of_mem c hh))

theorem not_prefix_subDir (lit val : List Char) {h0 : Char}
    (hlit : lit.head? = some h0) :
    ∀ (l : List Char), h0 ∉ l → ∀ cs, l.isPrefixOf cs = false →
      l.isPrefixOf (subDir lit val cs) = false := by
  intro l
  induction l with
  | nil => intro _ cs h; simp [List.isPrefixOf] at h
  | cons x l ih =>
    intro hfree cs h
    cases cs with
    | nil => simp [subDir, List.isPrefixOf] at h ⊢
    | cons c cs =>
      rw [subDir]
      cases hm : matchDirAt lit (c :: cs) with
      | some pr =>
        have hx : x ≠ h0 := fun hh => hfree (hh ▸ List.mem_cons_self x l)
        exact not_isPrefixOf_of_head_ne (by simp) (by
          cases lit with
          | nil => simp at hlit
          | cons y ys => simpa using hlit) hx
      | none =>
        by_cases hxc : x = c
        · subst hxc
          simp only [List.isPrefixOf, beq_self_eq_true, Bool.true_and] at h ⊢
          exact ih (fun hh => hfree (List.mem_cons_of_mem x hh)) cs h
        · simp [List.isPrefixOf, beq_false_of_ne hxc]

theorem not_prefix_subLit (p r : List Char) {h1 : Char}
    (hr : r.head? = some h1) :
    ∀ (l : List Char), h1 ∉ l → ∀ cs, l.isPrefixOf cs = false →
      l.isPrefixOf (subLit p r cs) = false := by
  intro l
  induction l with
  | nil => intro _ cs h; simp [List.isPrefixOf] at h
  | cons x l ih =>
    intro hfree cs h
    cases cs with
    | nil => simp [subLit, List.isPrefixOf] at h ⊢
    | cons c cs =>
      rw [subLit]
      cases hm : matchLitAt p (c :: cs) with
      | some rest =>
        have hx : x ≠ h1 := fun hh => hfree (hh ▸ List.mem_cons_self x l)
        exact not_isPrefixOf_of_head_ne (by simp) (by
          cases r with
          | nil => simp at hr
          | cons y ys => simpa using hr) hx
      | none =>
        by_cases hxc : x = c
        · subst hxc
          simp only [List.isPrefixOf, beq_self_eq_true, Bool.true_and] at h ⊢
          exact ih (fun hh => hfree (List.mem_cons_of_mem x hh)) cs h
        · simp [List.isPrefixOf, beq_false_of_ne hxc]

theorem matchDirAt_none_cases {lit cs : List Char} (h : matchDirAt lit cs = none) :
    lit.isPrefixOf cs = false ∨
      (lit.isPrefixOf cs = true ∧ ∀ c ∈ (cs.drop lit.length).head?, c.isDigit = false) := by
  unfold matchDirAt at h
  split at h
  next hpre =>
    split at h
    next hemp =>
      right
      refine ⟨hpre, ?_⟩
      intro c hc
      have htw : (cs.drop lit.length).takeWhile Char.isDigit = [] := by simpa using hemp
      cases hd : cs.drop lit.length with
      | nil => rw [hd] at hc; simp at hc
      | cons x xs =>
        rw [hd] at hc htw
        have hxc : x = c := by simpa using hc
        rw [List.takeWhile_cons] at htw
        cases hxi : x.isDigit with
        | true => rw [hxi] at htw; simp at htw
        | false => rw [← hxc]; exact hxi
    · exact absurd h (by simp)
  next hpre =>
    left
    cases hb : lit.isPrefixOf cs with
    | false => rfl
    | true => exact absurd hb hpre

theorem subDir_nil (lit val : List Char) : subDir lit val [] = [] := by
  simp [subDir]

theorem subDir_cons_of_some {lit val cs run rest : List Char}
    (h : matchDirAt lit cs = some (run, rest)) :
    subDir lit val cs = lit ++ val ++ subDir lit val rest := by
  cases cs with
  | nil =>
    exfalso
    unfold matchDirAt at h
    split at h
    · split at h
      · exact Option.noConfusion h
      next hrun => simp at hrun
    · exact Option.noConfusion h
  | cons c cs' =>
    rw [subDir]
    cases hm : matchDirAt lit (c :: cs') with
    | some pr =>
      rw [hm] at h
      simp only [Option.some.injEq] at h
      subst h
      rfl
    | none => rw [hm] at h; exact Option.noConfusion h

theorem subDir_cons_of_none {lit val : List Char} {c : Char} {cs : List Char}
    (h : matchDirAt lit (c :: cs) = none) :
    subDir lit val (c :: cs) = c :: subDir lit val cs := by
  rw [subDir]
  cases hm : matchDirAt lit (c :: cs) with
  | some pr => rw [hm] at h; exact Option.noConfusion h
  | none => rfl

theorem dirMatches_nil (lit : List Char) : dirMatches lit [] = [] := by
  simp [dirMatches]

theorem dirMatches_cons_of_some {lit cs run rest : List Char}
    (h : matchDirAt lit cs = some (run, rest)) :
    dirMatches lit cs = run :: dirMatches lit rest := by
  cases cs with
  | nil =>
    exfalso
    unfold matchDirAt at h
    split at h
    · split at h
      · exact Option.noConfusion h
      next hrun => simp at hrun
    · exact Option.noConfusion h
  | cons c cs' =>
    rw [dirMatches]
    cases hm : matchDirAt lit (c :: cs') with
    | some pr =>
      rw [hm] at h
      simp only [Option.some.injEq] at h
      subst h
      rfl
    | none => rw [hm] at h; exact Option.noConfusion h

theorem dirMatches_cons_of_none {lit : List Char} {c : Char} {cs : List Char}
    (h : matchDirAt lit (c :: cs) = none) :
    dirMatches lit (c :: cs) = dirMatches lit cs := by
  rw [dirMatches]
  cases hm : matchDirAt lit (c :: cs) with
  | some pr => rw [hm] at h; exact Option.noConfusion h
  | none => rfl

theorem subLit_nil (p r : List Char) : subLit p r [] = [] := by
  simp [subLit]

theorem subLit_cons_of_some {p r cs rest : List Char}
    (h : matchLitAt p cs = some rest) :
    subLit p r cs = r ++ subLit p r rest := by
  cases cs with
  | nil =>
    exfalso
    unfold matchLitAt at h
    split at h
    · exact Option.noConfusion h
    next hp =>
      split at h
      next hpre =>
        have : p = [] := by
          cases p with
          | nil => rfl
          | cons y ys => simp [List.isPrefixOf] at hpre
        rw [this] at hp
        simp at hp
      · exact Option.noConfusion h
  | cons c cs' =>
    rw [subLit]
    cases hm : matchLitAt p (c :: cs') with
    | some rest2 =>
      rw [hm] at h
      simp only [Option.some.injEq] at h
      subst h
      rfl
    | none => rw [hm] at h; exact Option.noConfusion h

theorem subLit_cons_of_none {p r : List Char} {c : Char} {cs : List Char}
    (h : matchLitAt p (c :: cs) = none) :
    subLit p r (c :: cs) = c :: subLit p r cs := by
  rw [subLit]
  cases hm : matchLitAt p (c :: cs) with
  | some rest => rw [hm] at h; exact Option.noConfusion h
  | none => rfl

theorem dirMatches_subDir_self_aux (lit val : List Char) {h0 : Char}
    (hlit : lit.head? = some h0) (htail : h0 ∉ lit.tail)
    (hval : val ≠ []) (hdig : ∀ c ∈ val, c.isDigit = true) :
    ∀ (n : Nat) (cs : List Char), cs.length ≤ n →
      dirMatches lit (subDir lit val cs) = (dirMatches lit cs).map (fun _ => val) := by
  obtain ⟨lt, rfl⟩ : ∃ lt : List Char, lit = h0 :: lt := by
    cases lit with
    | nil => simp at hlit
    | cons y ys =>
      have hy : y = h0 := by simpa using hlit
      exact ⟨ys, by rw [hy]⟩
  simp only [List.tail_cons] at htail
  intro n
  induction n with
  | zero =>
    intro cs hcs
    have : cs = [] := List.eq_nil_of_length_eq_zero (Nat.le_zero.mp hcs)
    subst this
    simp [subDir_nil, dirMatches_nil]
  | succ n ih =>
    intro cs hcs
    cases cs with
    | nil => simp [subDir_nil, dirMatches_nil]
    | cons c cs =>
      cases hm : matchDirAt (h0 :: lt) (c :: cs) with
      | some pr =>
        obtain ⟨run, rest⟩ := pr
        obtain ⟨hdecomp, hrun, _, hrhead⟩ := matchDirAt_some_parts hm
        have hhead2 : ∀ c' ∈ (subDir (h0 :: lt) val rest).head?, c'.isDigit = false := by
          rw [subDir_head (h0 :: lt) val rfl rest]
          exact hrhead
        have hout : matchDirAt (h0 :: lt) ((h0 :: lt) ++ val ++ subDir (h0 :: lt) val rest) =
            some (val, subDir (h0 :: lt) val rest) :=
          matchDirAt_intro (h0 :: lt) val _ hval hdig hhead2
        rw [subDir_cons_of_some hm, dirMatches_cons_of_some hout,
          dirMatches_cons_of_some hm]
        simp only [List.map_cons]
        have hrest : rest.length ≤ n := by
          have hlen := congrArg List.length hdecomp
          simp only [List.length_cons, List.length_append] at hlen
          have hrp : 1 ≤ run.length := List.length_pos.mpr hrun
          simp only [List.length_cons] at hcs
          omega
        rw [ih rest hrest]
      | none =>
        have hnone : matchDirAt (h0 :: lt) (c :: subDir (h0 :: lt) val cs) = none := by
          rcases matchDirAt_none_cases hm with hnp | ⟨hpre, hnd⟩
          · by_cases hch : c = h0
            · subst hch
              have hlp : lt.isPrefixOf cs = false := by
                simpa [List.isPrefixOf] using hnp
              have h2 := not_prefix_subDir (c :: lt) val rfl lt htail cs hlp
              apply matchDirAt_none_of_no_pre
              simpa [List.isPrefixOf] using h2
            · exact matchDirAt_none_of_no_pre
                (not_isPrefixOf_of_head_ne rfl rfl (fun hh => hch hh.symm))
          · have hdecomp := eq_append_drop_of_isPrefixOf hpre
            have hcc : c = h0 ∧ cs = lt ++ (c :: cs).drop (h0 :: lt).length := by
              have := hdecomp
              rw [List.cons_append] at this
              exact ⟨(List.cons.injEq _ _ _ _ ▸ this).1, (List.cons.injEq _ _ _ _ ▸ this).2⟩
            obtain ⟨hc0, hcs'⟩ := hcc
            subst hc0
            have hsub : subDir (c :: lt) val cs =
                lt ++ subDir (c :: lt) val ((c :: cs).drop (c :: lt).length) := by
              conv_lhs => rw [hcs']
              exact subDir_append_free (c :: lt) val rfl _ lt htail
            rw [hsub]
            apply matchDirAt_none_of_no_digit
            · simp only [List.isPrefixOf, beq_self_eq_true, Bool.true_and]
              exact isPrefixOf_append_self lt _
            · rw [List.length_cons, List.drop_succ_cons, List.drop_left]
              rw [subDir_head (c :: lt) val rfl]
              exact hnd
        rw [subDir_cons_of_none hm, dirMatches_cons_of_none hnone,
          dirMatches_cons_of_none hm]
        exact ih cs (by simpa using Nat.le_of_succ_le_succ (by simpa using hcs))

theorem dirMatches_subDir_self (lit val : List Char) {h0 : Char}
    (hlit : lit.head? = some h0) (htail : h0 ∉ lit.tail)
    (hval : val ≠ []) (hdig : ∀ c ∈ val, c.isDigit = true) (cs : List Char) :
    dirMatches lit (subDir lit val cs) = (dirMatches lit cs).map (fun _ => val) :=
  dirMatches_subDir_self_aux lit val hlit htail hval hdig cs.length cs (le_refl _)

theorem not_isPrefixOf_append_of_mismatch {l m : List Char} (i : Nat)
    (hil : i < l.length) (him : i < m.length)
    (hne : l.get ⟨i, hil⟩ ≠ m.get ⟨i, him⟩) :
    ∀ x, l.isPrefixOf (m ++ x) = false := by
  intro x
  cases hb : l.isPrefixOf (m ++ x) with
  | false => rfl
  | true =>
    exfalso
    have hpre := List.isPrefixOf_iff_prefix.mp hb
    have hi2 : i < (m ++ x).length := by
      rw [List.length_append]
      omega
    have h1 : (m ++ x).get ⟨i, hi2⟩ = l.get ⟨i, hil⟩ := by
      have := List.IsPrefix.getElem hpre hil
      simpa [List.get_eq_getElem] using this.symm
    have h2 : (m ++ x).get ⟨i, hi2⟩ = m.get ⟨i, him⟩ := by
      simp [List.get_eq_getElem, List.getElem_append_left him]
    exact hne (h1 ▸ h2)

theorem dirMatches_subDir_other_aux (lit lit2 val : List Char) {h0 : Char}
    (hlit : lit.head? = some h0) (htail : h0 ∉ lit.tail)
    (hlit2 : lit2.head? = some h0) (htail2 : h0 ∉ lit2.tail)
    (hval : val ≠ []) (hdig : ∀ c ∈ val, c.isDigit = true)
    (hh0d : h0.isDigit = false)
    (hx : ∀ x, lit2.isPrefixOf (lit ++ x) = false) :
    ∀ (n : Nat) (cs : List Char), cs.length ≤ n →
      dirMatches lit2 (subDir lit val cs) = dirMatches lit2 cs := by
  obtain ⟨lt, rfl⟩ : ∃ lt : List Char, lit = h0 :: lt := by
    cases lit with
    | nil => simp at hlit
    | cons y ys =>
      have hy : y = h0 := by simpa using hlit
      exact ⟨ys, by rw [hy]⟩
  obtain ⟨lt2, rfl⟩ : ∃ lt2 : List Char, lit2 = h0 :: lt2 := by
    cases lit2 with
    | nil => simp at hlit2
    | cons y ys =>
      have hy : y = h0 := by simpa using hlit2
      exact ⟨ys, by rw [hy]⟩
  simp only [List.tail_cons] at htail htail2
  have hvalh : h0 ∉ val := fun hmem => by rw [hdig h0 hmem] at hh0d; exact Bool.noConfusion hh0d
  have hskip : ∀ (w X : List Char), h0 ∉ w →
      dirMatches (h0 :: lt2) ((h0 :: lt) ++ w ++ X) = dirMatches (h0 :: lt2) X := by
    intro w X hw
    have hnone : matchDirAt (h0 :: lt2) ((h0 :: lt) ++ w ++ X) = none := by
      apply matchDirAt_none_of_no_pre
      rw [List.append_assoc]
      exact hx (w ++ X)
    rw [show (h0 :: lt) ++ w ++ X = h0 :: (lt ++ w ++ X) by simp, dirMatches_cons_of_none]
    · rw [show lt ++ w ++ X = (lt ++ w) ++ X by simp]
      refine dirMatches_append_free (h0 :: lt2) rfl X (lt ++ w) ?_
      intro hmem
      rcases List.mem_append.mp hmem with hh | hh
      · exact htail hh
      · exact hw hh
    · rw [show h0 :: (lt ++ w ++ X) = (h0 :: lt) ++ w ++ X by simp]
      exact hnone
  intro n
  induction n with
  | zero =>
    intro cs hcs
    have : cs = [] := List.eq_nil_of_length_eq_zero (Nat.le_zero.mp hcs)
    subst this
    simp [subDir_nil]
  | succ n ih =>
    intro cs hcs
    cases cs with
    | nil => simp [subDir_nil]
    | cons c cs =>
      cases hm : matchDirAt (h0 :: lt) (c :: cs) with
      | some pr =>
        obtain ⟨run, rest⟩ := pr
        obtain ⟨hdecomp, hrun, hrdig, hrhead⟩ := matchDirAt_some_parts hm
        have hrunh : h0 ∉ run := fun hmem => by
          rw [hrdig h0 hmem] at hh0d; exact Bool.noConfusion hh0d
        rw [subDir_cons_of_some hm, hskip val (subDir (h0 :: lt) val rest) hvalh]
        rw [show (c :: cs : List Char) = (h0 :: lt) ++ run ++ rest from hdecomp,
          hskip run rest hrunh]
        have hrest : rest.length ≤ n := by
          have hlen := congrArg List.length hdecomp
          simp only [List.length_cons, List.length_append] at hlen
          have hrp : 1 ≤ run.length := List.length_pos.mpr hrun
          simp only [List.length_cons] at hcs
          omega
        exact ih rest hrest
      | none =>
        rw [subDir_cons_of_none hm]
        cases hm2 : matchDirAt (h0 :: lt2) (c :: cs) with
        | some pr2 =>
          obtain ⟨run2, rest2⟩ := pr2
          obtain ⟨hdecomp2, hrun2, hrdig2, hrhead2⟩ := matchDirAt_some_parts hm2
          have hc0 : c = h0 ∧ cs = lt2 ++ run2 ++ rest2 := by
            have := hdecomp2
            simp only [List.cons_append, List.append_assoc] at this
            exact ⟨(List.cons.injEq _ _ _ _ ▸ this).1, by
              have h2 := (List.cons.injEq _ _ _ _ ▸ this).2
              rw [h2, List.append_assoc]⟩
          have hrun2h : h0 ∉ run2 := fun hmem => by
            rw [hrdig2 h0 hmem] at hh0d; exact Bool.noConfusion hh0d
          obtain ⟨rfl, hcs2⟩ := hc0
          have hsub : subDir (c :: lt) val cs =
              (lt2 ++ run2) ++ subDir (c :: lt) val rest2 := by
            conv_lhs => rw [hcs2]
            refine subDir_append_free (c :: lt) val rfl rest2 (lt2 ++ run2) ?_
            intro hmem
            rcases List.mem_append.mp hmem with hh | hh
            · exact htail2 hh
            · exact hrun2h hh
          rw [hsub]
          have hout : matchDirAt (c :: lt2)
              ((c :: lt2) ++ run2 ++ subDir (c :: lt) val rest2) =
              some (run2, subDir (c :: lt) val rest2) := by
            refine matchDirAt_intro (c :: lt2) run2 _ hrun2 hrdig2 ?_
            rw [subDir_head (c :: lt) val rfl rest2]
            exact hrhead2
          rw [show (c :: (lt2 ++ run2 ++ subDir (c :: lt) val rest2) : List Char) =
            (c :: lt2) ++ run2 ++ subDir (c :: lt) val rest2 by simp]
          rw [dirMatches_cons_of_some hout, dirMatches_cons_of_some hm2]
          have hrest2 : rest2.length ≤ n := by
            have hlen := congrArg List.length hdecomp2
            simp only [List.length_cons, List.length_append] at hlen
            have hrp : 1 ≤ run2.length := List.length_pos.mpr hrun2
            simp only [List.length_cons] at hcs
            omega
          rw [ih rest2 hrest2]
        | none =>
          have hnone : matchDirAt (h0 :: lt2) (c :: subDir (h0 :: lt) val cs) = none := by
            rcases matchDirAt_none_cases hm2 with hnp | ⟨hpre, hnd⟩
            · by_cases hch : c = h0
              · subst hch
                have hlp : lt2.isPrefixOf cs = false := by
                  simpa [List.isPrefixOf] using hnp
                have h2 := not_prefix_subDir (c :: lt) val rfl lt2 htail2 cs hlp
                apply matchDirAt_none_of_no_pre
                simpa [List.isPrefixOf] using h2
              · exact matchDirAt_none_of_no_pre
                  (not_isPrefixOf_of_head_ne rfl rfl (fun hh => hch hh.symm))
            · have hdecomp2 := eq_append_drop_of_isPrefixOf hpre
              have hcc : c = h0 ∧ cs = lt2 ++ (c :: cs).drop (h0 :: lt2).length := by
                have := hdecomp2
                rw [List.cons_append] at this
                exact ⟨(List.cons.injEq _ _ _ _ ▸ this).1,
                  (List.cons.injEq _ _ _ _ ▸ this).2⟩
              obtain ⟨hc0, hcs'⟩ := hcc
              subst hc0
              have hsub : subDir (c :: lt) val cs =
                  lt2 ++ subDir (c :: lt) val ((c :: cs).drop (c :: lt2).length) := by
                conv_lhs => rw [hcs']
                exact subDir_append_free (c :: lt) val rfl _ lt2 htail2
              rw [hsub]
              apply matchDirAt_none_of_no_digit
              · simp only [List.isPrefixOf, beq_self_eq_true, Bool.true_and]
                exact isPrefixOf_append_self lt2 _
              · rw [List.length_cons, List.drop_succ_cons, List.drop_left]
                rw [subDir_head (c :: lt) val rfl]
                exact hnd
          rw [dirMatches_cons_of_none hnone, dirMatches_cons_of_none hm2]
          exact ih cs (by simpa using Nat.le_of_succ_le_succ (by simpa using hcs))

theorem dirMatches_subDir_other (lit lit2 val : List Char) {h0 : Char}
    (hlit : lit.head? = some h0) (htail : h0 ∉ lit.tail)
    (hlit2 : lit2.head? = some h0) (htail2 : h0 ∉ lit2.tail)
    (hval : val ≠ []) (hdig : ∀ c ∈ val, c.isDigit = true)
    (hh0d : h0.isDigit = false)
    (hx : ∀ x, lit2.isPrefixOf (lit ++ x) = false) (cs : List Char) :
    dirMatches lit2 (subDir lit val cs) = dirMatches lit2 cs :=
  dirMatches_subDir_other_aux lit lit2 val hlit htail hlit2 htail2 hval hdig hh0d hx
    cs.length cs (le_refl _)

theorem dirMatches_subLit_aux (p r lit : List Char) {hH h0 : Char}
    (hlit : lit.head? = some hH) (htail : hH ∉ lit.tail)
    (hph : p.head? = some h0) (hrh : r.head? = some h0)
    (hlta : h0 ∉ lit.tail) (hdig0 : h0.isDigit = false)
    (hP : ∀ x, dirMatches lit (p ++ x) = dirMatches lit x)
    (hR : ∀ x, dirMatches lit (r ++ x) = dirMatches lit x) :
    ∀ (n : Nat) (cs : List Char), cs.length ≤ n →
      dirMatches lit (subLit p r cs) = dirMatches lit cs := by
  obtain ⟨lt, rfl⟩ : ∃ lt : List Char, lit = hH :: lt := by
    cases lit with
    | nil => simp at hlit
    | cons y ys =>
      have hy : y = hH := by simpa using hlit
      exact ⟨ys, by rw [hy]⟩
  simp only [List.tail_cons] at htail hlta
  intro n
  induction n with
  | zero =>
    intro cs hcs
    have : cs = [] := List.eq_nil_of_length_eq_zero (Nat.le_zero.mp hcs)
    subst this
    simp [subLit_nil]
  | succ n ih =>
    intro cs hcs
    cases cs with
    | nil => simp [subLit_nil]
    | cons c cs =>
      cases hmL : matchLitAt p (c :: cs) with
      | some rest =>
        obtain ⟨hdecomp, hpne⟩ := matchLitAt_some_parts hmL
        rw [subLit_cons_of_some hmL, hR (subLit p r rest), hdecomp, hP rest]
        have hrest : rest.length ≤ n := by
          have hlen := congrArg List.length hdecomp
          simp only [List.length_cons, List.length_append] at hlen
          have hrp : 1 ≤ p.length := List.length_pos.mpr hpne
          simp only [List.length_cons] at hcs
          omega
        exact ih rest hrest
      | none =>
        rw [subLit_cons_of_none hmL]
        cases hm : matchDirAt (hH :: lt) (c :: cs) with
        | some pr =>
          obtain ⟨run, rest⟩ := pr
          obtain ⟨hdecomp, hrun, hrdig, hrhead⟩ := matchDirAt_some_parts hm
          have hrunh : h0 ∉ run := fun hmem => by
            rw [hrdig h0 hmem] at hdig0; exact Bool.noConfusion hdig0
          have hcc : c = hH ∧ cs = lt ++ run ++ rest := by
            have := hdecomp
            simp only [List.cons_append, List.append_assoc] at this
            exact ⟨(List.cons.injEq _ _ _ _ ▸ this).1, by
              have h2 := (List.cons.injEq _ _ _ _ ▸ this).2
              rw [h2, List.append_assoc]⟩
          obtain ⟨rfl, hcs2⟩ := hcc
          have hsub : subLit p r cs = (lt ++ run) ++ subLit p r rest := by
            conv_lhs => rw [hcs2]
            refine subLit_append_free p r hph rest (lt ++ run) ?_
            intro hmem
            rcases List.mem_append.mp hmem with hh | hh
            · exact hlta hh
            · exact hrunh hh
          rw [hsub]
          have hout : matchDirAt (c :: lt) ((c :: lt) ++ run ++ subLit p r rest) =
              some (run, subLit p r rest) := by
            refine matchDirAt_intro (c :: lt) run _ hrun hrdig ?_
            rw [subLit_head p r hph hrh rest]
            exact hrhead
          rw [show (c :: ((lt ++ run) ++ subLit p r rest) : List Char) =
            (c :: lt) ++ run ++ subLit p r rest by simp]
          rw [dirMatches_cons_of_some hout, dirMatches_cons_of_some hm]
          have hrest : rest.length ≤ n := by
            have hlen := congrArg List.length hdecomp
            simp only [List.length_cons, List.length_append] at hlen
            have hrp : 1 ≤ run.length := List.length_pos.mpr hrun
            simp only [List.length_cons] at hcs
            omega
          rw [ih rest hrest]
        | none =>
          have hnone : matchDirAt (hH :: lt) (c :: subLit p r cs) = none := by
            rcases matchDirAt_none_cases hm with hnp | ⟨hpre, hnd⟩
            · by_cases hch : c = hH
              · subst hch
                have hlp : lt.isPrefixOf cs = false := by
                  simpa [List.isPrefixOf] using hnp
                have h2 := not_prefix_subLit p r hrh lt hlta cs hlp
                apply matchDirAt_none_of_no_pre
                simpa [List.isPrefixOf] using h2
              · exact matchDirAt_none_of_no_pre
                  (not_isPrefixOf_of_head_ne rfl rfl (fun hh => hch hh.symm))
            · have hdecomp2 := eq_append_drop_of_isPrefixOf hpre
              have hcc : c = hH ∧ cs = lt ++ (c :: cs).drop (hH :: lt).length := by
                have := hdecomp2
                rw [List.cons_append] at this
                exact ⟨(List.cons.injEq _ _ _ _ ▸ this).1,
                  (List.cons.injEq _ _ _ _ ▸ this).2⟩
              obtain ⟨hc0, hcs'⟩ := hcc
              subst hc0
              have hsub : subLit p r cs =
                  lt ++ subLit p r ((c :: cs).drop (c :: lt).length) := by
                conv_lhs => rw [hcs']
                exact subLit_append_free p r hph _ lt hlta
              rw [hsub]
              apply matchDirAt_none_of_no_digit
              · simp only [List.isPrefixOf, beq_self_eq_true, Bool.true_and]
                exact isPrefixOf_append_self lt _
              · rw [List.length_cons, List.drop_succ_cons, List.drop_left]
                rw [subLit_head p r hph hrh]
                exact hnd
          rw [dirMatches_cons_of_none hnone, dirMatches_cons_of_none hm]
          exact ih cs (by simpa using Nat.le_of_succ_le_succ (by simpa using hcs))

theorem dirMatches_subLit (p r lit : List Char) {hH h0 : Char}
    (hlit : lit.head? = some hH) (htail : hH ∉ lit.tail)
    (hph : p.head? = some h0) (hrh : r.head? = some h0)
    (hlta : h0 ∉ lit.tail) (hdig0 : h0.isDigit = false)
    (hP : ∀ x, dirMatches lit (p ++ x) = dirMatches lit x)
    (hR : ∀ x, dirMatches lit (r ++ x) = dirMatches lit x) (cs : List Char) :
    dirMatches lit (subLit p r cs) = dirMatches lit cs :=
  dirMatches_subLit_aux p r lit hlit htail hph hrh hlta hdig0 hP hR cs.length cs (le_refl _)

theorem infix_of_concat_left {s tok t x y : List Char}
    (h : s ++ tok ++ t = x ++ y) (hlen : s.length + tok.length ≤ x.length) :
    tok <:+: x := by
  have hx := congrArg (List.take x.length) h
  rw [List.take_left] at hx
  rw [List.append_assoc, List.take_append_eq_append_take,
    List.take_all_of_le (by omega), List.take_append_eq_append_take,
    List.take_all_of_le (by omega)] at hx
  exact ⟨s, t.take (x.length - s.length - tok.length), by rw [← hx]; simp⟩

theorem infix_of_concat_right {s tok t x y : List Char}
    (h : s ++ tok ++ t = x ++ y) (hlen : x.length ≤ s.length) :
    tok <:+: y := by
  have hy := congrArg (List.drop x.length) h
  rw [List.drop_left] at hy
  rw [List.append_assoc, List.drop_append_eq_append_drop,
    Nat.sub_eq_zero_of_le hlen, List.drop_zero] at hy
  exact ⟨s.drop x.length, t, by rw [← hy]; simp⟩

theorem infix_split_left {tok x y : List Char} {c : Char}
    (hy : y.head? = some c) (hc : c ∉ tok) (h : tok <:+: x ++ y) :
    tok <:+: x ∨ tok <:+: y := by
  obtain ⟨s, t, hst⟩ := h
  by_cases h1 : s.length + tok.length ≤ x.length
  · exact Or.inl (infix_of_concat_left hst h1)
  · by_cases h2 : x.length ≤ s.length
    · exact Or.inr (infix_of_concat_right hst h2)
    · exfalso
      obtain ⟨y', rfl⟩ : ∃ y', y = c :: y' := by
        cases y with
        | nil => simp at hy
        | cons d ds =>
          have : d = c := by simpa using hy
          exact ⟨ds, by rw [this]⟩
      have hv1 : (x ++ c :: y')[x.length]? = some c := by
        rw [List.getElem?_append_right (le_refl x.length)]
        simp
      have hv2 : (s ++ tok ++ t)[x.length]? = some c := by rw [hst]; exact hv1
      have hv3 : (s ++ tok ++ t)[x.length]? = tok[x.length - s.length]? := by
        rw [List.getElem?_append]
        rw [if_pos (by simp; omega)]
        rw [List.getElem?_append_right (by omega)]
      rw [hv3] at hv2
      obtain ⟨hb, hval⟩ := List.getElem?_eq_some_iff.mp hv2
      exact hc (hval ▸ List.getElem_mem hb)

theorem infix_split_right {tok x y : List Char} {c : Char}
    (hx : x.getLast? = some c) (hc : c ∉ tok) (h : tok <:+: x ++ y) :
    tok <:+: x ∨ tok <:+: y := by
  obtain ⟨s, t, hst⟩ := h
  by_cases h1 : s.length + tok.length ≤ x.length
  · exact Or.inl (infix_of_concat_left hst h1)
  · by_cases h2 : x.length ≤ s.length
    · exact Or.inr (infix_of_concat_right hst h2)
    · exfalso
      have hxpos : 0 < x.length := by omega
      have hxl : x.length - 1 < x.length := by omega
      have hgl : x[x.length - 1]? = some c := by
        rw [List.getLast?_eq_getElem?] at hx
        exact hx
      have hv1 : (x ++ y)[x.length - 1]? = some c := by
        rw [List.getElem?_append]
        rw [if_pos hxl]
        exact hgl
      have hv2 : (s ++ tok ++ t)[x.length - 1]? = some c := by rw [hst]; exact hv1
      have hv3 : (s ++ tok ++ t)[x.length - 1]? = tok[x.length - 1 - s.length]? := by
        rw [List.getElem?_append]
        rw [if_pos (by simp; omega)]
        rw [List.getElem?_append_right (by omega)]
      rw [hv3] at hv2
      obtain ⟨hb, hval⟩ := List.getElem?_eq_some_iff.mp hv2
      exact hc (hval ▸ List.getElem_mem hb)

theorem not_infix_subDir_aux (lit val tok : List Char) {h0 : Char}
    (hlit : lit.head? = some h0) (htt : h0 ∉ tok.tail)
    (htok : tok ≠ []) (hnl : ¬ tok <:+: lit)
    (hndig : ∀ c ∈ tok, c.isDigit = false)
    (hval : val ≠ []) (hdig : ∀ c ∈ val, c.isDigit = true) :
    ∀ (n : Nat) (cs : List Char), cs.length ≤ n → ¬ tok <:+: cs →
      ¬ tok <:+: subDir lit val cs := by
  intro n
  induction n with
  | zero =>
    intro cs hcs hnc
    have : cs = [] := List.eq_nil_of_length_eq_zero (Nat.le_zero.mp hcs)
    subst this
    rw [subDir_nil]
    exact hnc
  | succ n ih =>
    intro cs hcs hnc
    cases cs with
    | nil => rw [subDir_nil]; exact hnc
    | cons c cs =>
      obtain ⟨vh, vt, rfl⟩ : ∃ (vh : Char) (vt : List Char), val = vh :: vt := by
        cases val with
        | nil => exact absurd rfl hval
        | cons a as => exact ⟨a, as, rfl⟩
      have hvh : vh.isDigit = true := hdig vh (by simp)
      have hvhm : vh ∉ tok := fun hmem => by
        rw [hndig vh hmem] at hvh; exact Bool.noConfusion hvh
      cases hm : matchDirAt lit (c :: cs) with
      | some pr =>
        obtain ⟨run, rest⟩ := pr
        obtain ⟨hdecomp, hrun, hrdig, hrhead⟩ := matchDirAt_some_parts hm
        rw [subDir_cons_of_some hm]
        intro hinf
        rw [List.append_assoc] at hinf
        have hyh : ((vh :: vt) ++ subDir lit (vh :: vt) rest).head? = some vh := by simp
        rcases infix_split_left hyh hvhm hinf with h1 | h1
        · exact hnl h1
        · have hlast9 : (vh :: vt).getLast? = some ((vh :: vt).getLast (by simp)) :=
            List.getLast?_eq_getLast _ (by simp)
          have hdm : (vh :: vt).getLast (by simp) ∈ (vh :: vt) := List.getLast_mem _
          have hdd : ((vh :: vt).getLast (by simp)).isDigit = true := hdig _ hdm
          have hdnm : (vh :: vt).getLast (by simp) ∉ tok := fun hmem => by
            rw [hndig _ hmem] at hdd; exact Bool.noConfusion hdd
          rcases infix_split_right hlast9 hdnm h1 with h2 | h2
          · obtain ⟨t0, tok', rfl⟩ : ∃ t0 tok', tok = t0 :: tok' := by
              cases tok with
              | nil => exact absurd rfl htok
              | cons a as => exact ⟨a, as, rfl⟩
            have hmem : t0 ∈ (vh :: vt) := h2.subset (by simp)
            have hd := hdig t0 hmem
            rw [hndig t0 (by simp)] at hd
            exact Bool.noConfusion hd
          · have hrinf : rest <:+: c :: cs := by
              refine ⟨lit ++ run, [], ?_⟩
              rw [hdecomp]
              simp
            have hrninf : ¬ tok <:+: rest := fun hh => hnc (hh.trans hrinf)
            have hrlen : rest.length ≤ n := by
              have hlen := congrArg List.length hdecomp
              simp only [List.length_cons, List.length_append] at hlen
              have hrp : 1 ≤ run.length := List.length_pos.mpr hrun
              simp only [List.length_cons] at hcs
              omega
            exact ih rest hrlen hrninf h2
      | none =>
        rw [subDir_cons_of_none hm]
        intro hinf
        rcases List.infix_cons_iff.mp hinf with h1 | h1
        · obtain ⟨t0, tok', rfl⟩ : ∃ t0 tok', tok = t0 :: tok' := by
            cases tok with
            | nil => exact absurd rfl htok
            | cons a as => exact ⟨a, as, rfl⟩
          simp only [List.tail_cons] at htt
          obtain ⟨hc0, htokpre⟩ : t0 = c ∧ tok'.isPrefixOf (subDir lit (vh :: vt) cs) = true := by
            have hb := List.isPrefixOf_iff_prefix.mpr h1
            simpa [List.isPrefixOf] using hb
          have hnp : tok'.isPrefixOf cs = false := by
            cases hbb : tok'.isPrefixOf cs with
            | false => rfl
            | true =>
              exfalso
              apply hnc
              apply List.IsPrefix.isInfix
              rw [hc0]
              exact List.cons_prefix_cons.mpr ⟨rfl, List.isPrefixOf_iff_prefix.mp hbb⟩
          have hfin := not_prefix_subDir lit (vh :: vt) hlit tok' htt cs hnp
          rw [htokpre] at hfin
          exact Bool.noConfusion hfin
        · have hcns : ¬ tok <:+: cs := fun hh => hnc (List.infix_cons hh)
          exact ih cs (by simpa using Nat.le_of_succ_le_succ (by simpa using hcs)) hcns h1

theorem not_infix_subDir (lit val tok : List Char) {h0 : Char}
    (hlit : lit.head? = some h0) (htt : h0 ∉ tok.tail)
    (htok : tok ≠ []) (hnl : ¬ tok <:+: lit)
    (hndig : ∀ c ∈ tok, c.isDigit = false)
    (hval : val ≠ []) (hdig : ∀ c ∈ val, c.isDigit = true)
    (cs : List Char) (hnc : ¬ tok <:+: cs) : ¬ tok <:+: subDir lit val cs :=
  not_infix_subDir_aux lit val tok hlit htt htok hnl hndig hval hdig
    cs.length cs (le_refl _) hnc

theorem not_infix_subLit_aux (p r tok : List Char) {h0 cl : Char}
    (hrh : r.head? = some h0) (htt : h0 ∉ tok.tail)
    (htok : tok ≠ []) (hnr : ¬ tok <:+: r)
    (hrlast : r.getLast? = some cl) (hcl : cl ∉ tok) :
    ∀ (n : Nat) (cs : List Char), cs.length ≤ n → ¬ tok <:+: cs →
      ¬ tok <:+: subLit p r cs := by
  intro n
  induction n with
  | zero =>
    intro cs hcs hnc
    have : cs = [] := List.eq_nil_of_length_eq_zero (Nat.le_zero.mp hcs)
    subst this
    rw [subLit_nil]
    exact hnc
  | succ n ih =>
    intro cs hcs hnc
    cases cs with
    | nil => rw [subLit_nil]; exact hnc
    | cons c cs =>
      cases hm : matchLitAt p (c :: cs) with
      | some rest =>
        obtain ⟨hdecomp, hpne⟩ := matchLitAt_some_parts hm
        rw [subLit_cons_of_some hm]
        intro hinf
        rcases infix_split_right hrlast hcl hinf with h1 | h1
        · exact hnr h1
        · have hrinf : rest <:+: c :: cs := by
            refine ⟨p, [], ?_⟩
            rw [hdecomp]
            simp
          have hrninf : ¬ tok <:+: rest := fun hh => hnc (hh.trans hrinf)
          have hrlen : rest.length ≤ n := by
            have hlen := congrArg List.length hdecomp
            simp only [List.length_cons, List.length_append] at hlen
            have hrp : 1 ≤ p.length := List.length_pos.mpr hpne
            simp only [List.length_cons] at hcs
            omega
          exact ih rest hrlen hrninf h1
      | none =>
        rw [subLit_cons_of_none hm]
        intro hinf
        rcases List.infix_cons_iff.mp hinf with h1 | h1
        · obtain ⟨t0, tok', rfl⟩ : ∃ t0 tok', tok = t0 :: tok' := by
            cases tok with
            | nil => exact absurd rfl htok
            | cons a as => exact ⟨a, as, rfl⟩
          simp only [List.tail_cons] at htt
          obtain ⟨hc0, htokpre⟩ : t0 = c ∧ tok'.isPrefixOf (subLit p r cs) = true := by
            have hb := List.isPrefixOf_iff_prefix.mpr h1
            simpa [List.isPrefixOf] using hb
          have hnp : tok'.isPrefixOf cs = false := by
            cases hbb : tok'.isPrefixOf cs with
            | false => rfl
            | true =>
              exfalso
              apply hnc
              apply List.IsPrefix.isInfix
              rw [hc0]
              exact List.cons_prefix_cons.mpr ⟨rfl, List.isPrefixOf_iff_prefix.mp hbb⟩
          have hfin := not_prefix_subLit p r hrh tok' htt cs hnp
          rw [htokpre] at hfin
          exact Bool.noConfusion hfin
        · have hcns : ¬ tok <:+: cs := fun hh => hnc (List.infix_cons hh)
          exact ih cs (by simpa using Nat.le_of_succ_le_succ (by simpa using hcs)) hcns h1

theorem not_infix_subLit (p r tok : List Char) {h0 cl : Char}
    (hrh : r.head? = some h0) (htt : h0 ∉ tok.tail)
    (htok : tok ≠ []) (hnr : ¬ tok <:+: r)
    (hrlast : r.getLast? = some cl) (hcl : cl ∉ tok)
    (cs : List Char) (hnc : ¬ tok <:+: cs) : ¬ tok <:+: subLit p r cs :=
  not_infix_subLit_aux p r tok hrh htt htok hnr hrlast hcl cs.length cs (le_refl _) hnc

theorem litOccurs_nil (p : List Char) : litOccurs p [] = 0 := by
  simp [litOccurs]

theorem litOccurs_cons_of_some {p cs rest : List Char}
    (h : matchLitAt p cs = some rest) :
    litOccurs p cs = 1 + litOccurs p rest := by
  cases cs with
  | nil =>
    exfalso
    unfold matchLitAt at h
    split at h
    · exact Option.noConfusion h
    next hp =>
      split at h
      next hpre =>
        have : p = [] := by
          cases p with
          | nil => rfl
          | cons y ys => simp [List.isPrefixOf] at hpre
        rw [this] at hp
        simp at hp
      · exact Option.noConfusion h
  | cons c cs' =>
    rw [litOccurs]
    cases hm : matchLitAt p (c :: cs') with
    | some rest2 =>
      rw [hm] at h
      simp only [Option.some.injEq] at h
      subst h
      rfl
    | none => rw [hm] at h; exact Option.noConfusion h

theorem litOccurs_cons_of_none {p : List Char} {c : Char} {cs : List Char}
    (h : matchLitAt p (c :: cs) = none) :
    litOccurs p (c :: cs) = litOccurs p cs := by
  rw [litOccurs]
  cases hm : matchLitAt p (c :: cs) with
  | some rest => rw [hm] at h; exact Option.noConfusion h
  | none => rfl

theorem subDirF_eq (lit val : List Char) :
    ∀ (n : Nat) (cs : List Char), cs.length ≤ n →
      subDirF lit val n cs = subDir lit val cs := by
  intro n
  induction n with
  | zero =>
    intro cs hcs
    have : cs = [] := List.eq_nil_of_length_eq_zero (Nat.le_zero.mp hcs)
    subst this
    rw [subDir_nil]
    rfl
  | succ n ih =>
    intro cs hcs
    cases cs with
    | nil => rw [subDir_nil]; rfl
    | cons c cs =>
      cases hm : matchDirAt lit (c :: cs) with
      | some pr =>
        obtain ⟨run, rest⟩ := pr
        obtain ⟨hdecomp, hrun, _, _⟩ := matchDirAt_some_parts hm
        have hstep : subDirF lit val (n + 1) (c :: cs) =
            lit ++ val ++ subDirF lit val n rest := by
          simp only [subDirF]
          rw [hm]
        rw [hstep, subDir_cons_of_some hm]
        have hrest : rest.length ≤ n := by
          have hlen := congrArg List.length hdecomp
          simp only [List.length_cons, List.length_append] at hlen
          have hrp : 1 ≤ run.length := List.length_pos.mpr hrun
          simp only [List.length_cons] at hcs
          omega
        rw [ih rest hrest]
      | none =>
        have hstep : subDirF lit val (n + 1) (c :: cs) =
            c :: subDirF lit val n cs := by
          simp only [subDirF]
          rw [hm]
        rw [hstep, subDir_cons_of_none hm,
          ih cs (by simpa using Nat.le_of_succ_le_succ (by simpa using hcs))]

theorem dirMatchesF_eq (lit : List Char) :
    ∀ (n : Nat) (cs : List Char), cs.length ≤ n →
      dirMatchesF lit n cs = dirMatches lit cs := by
  intro n
  induction n with
  | zero =>
    intro cs hcs
    have : cs = [] := List.eq_nil_of_length_eq_zero (Nat.le_zero.mp hcs)
    subst this
    rw [dirMatches_nil]
    rfl
  | succ n ih =>
    intro cs hcs
    cases cs with
    | nil => rw [dirMatches_nil]; rfl
    | cons c cs =>
      cases hm : matchDirAt lit (c :: cs) with
      | some pr =>
        obtain ⟨run, rest⟩ := pr
        obtain ⟨hdecomp, hrun, _, _⟩ := matchDirAt_some_parts hm
        have hstep : dirMatchesF lit (n + 1) (c :: cs) =
            run :: dirMatchesF lit n rest := by
          simp only [dirMatchesF]
          rw [hm]
        rw [hstep, dirMatches_cons_of_some hm]
        have hrest : rest.length ≤ n := by
          have hlen := congrArg List.length hdecomp
          simp only [List.length_cons, List.length_append] at hlen
          have hrp : 1 ≤ run.length := List.length_pos.mpr hrun
          simp only [List.length_cons] at hcs
          omega
        rw [ih rest hrest]
      | none =>
        have hstep : dirMatchesF lit (n + 1) (c :: cs) = dirMatchesF lit n cs := by
          simp only [dirMatchesF]
          rw [hm]
        rw [hstep, dirMatches_cons_of_none hm]
        exact ih cs (by simpa using Nat.le_of_succ_le_succ (by simpa using hcs))

theorem subLitF_eq (p r : List Char) :
    ∀ (n : Nat) (cs : List Char), cs.length ≤ n →
      subLitF p r n cs = subLit p r cs := by
  intro n
  induction n with
  | zero =>
    intro cs hcs
    have : cs = [] := List.eq_nil_of_length_eq_zero (Nat.le_zero.mp hcs)
    subst this
    rw [subLit_nil]
    rfl
  | succ n ih =>
    intro cs hcs
    cases cs with
    | nil => rw [subLit_nil]; rfl
    | cons c cs =>
      cases hm : matchLitAt p (c :: cs) with
      | some rest =>
        obtain ⟨hdecomp, hpne⟩ := matchLitAt_some_parts hm
        have hstep : subLitF p r (n + 1) (c :: cs) =
            r ++ subLitF p r n rest := by
          simp only [subLitF]
          rw [hm]
        rw [hstep, subLit_cons_of_some hm]
        have hrest : rest.length ≤ n := by
          have hlen := congrArg List.length hdecomp
          simp only [List.length_cons, List.length_append] at hlen
          have hrp : 1 ≤ p.length := List.length_pos.mpr hpne
          simp only [List.length_cons] at hcs
          omega
        rw [ih rest hrest]
      | none =>
        have hstep : subLitF p r (n + 1) (c :: cs) = c :: subLitF p r n cs := by
          simp only [subLitF]
          rw [hm]
        rw [hstep, subLit_cons_of_none hm,
          ih cs (by simpa using Nat.le_of_succ_le_succ (by simpa using hcs))]

theorem litOccursF_eq (p : List Char) :
    ∀ (n : Nat) (cs : List Char), cs.length ≤ n →
      litOccursF p n cs = litOccurs p cs := by
  intro n
  induction n with
  | zero =>
    intro cs hcs
    have : cs = [] := List.eq_nil_of_length_eq_zero (Nat.le_zero.mp hcs)
    subst this
    rw [litOccurs_nil]
    rfl
  | succ n ih =>
    intro cs hcs
    cases cs with
    | nil => rw [litOccurs_nil]; rfl
    | cons c cs =>
      cases hm : matchLitAt p (c :: cs) with
      | some rest =>
        obtain ⟨hdecomp, hpne⟩ := matchLitAt_some_parts hm
        have hstep : litOccursF p (n + 1) (c :: cs) = 1 + litOccursF p n rest := by
          simp only [litOccursF]
          rw [hm]
        rw [hstep, litOccurs_cons_of_some hm]
        have hrest : rest.length ≤ n := by
          have hlen := congrArg List.length hdecomp
          simp only [List.length_cons, List.length_append] at hlen
          have hrp : 1 ≤ p.length := List.length_pos.mpr hpne
          simp only [List.length_cons] at hcs
          omega
        rw [ih rest hrest]
      | none =>
        have hstep : litOccursF p (n + 1) (c :: cs) = litOccursF p n cs := by
          simp only [litOccursF]
          rw [hm]
        rw [hstep, litOccurs_cons_of_none hm]
        exact ih cs (by simpa using Nat.le_of_succ_le_succ (by simpa using hcs))

theorem mem_of_getLast?_eq {l : List Char} {w : Char} (h : l.getLast? = some w) :
    w ∈ l := by
  have hm : w ∈ l.getLast? := h
  obtain ⟨hne, hw⟩ := List.mem_getLast?_eq_getLast hm
  rw [hw]
  exact List.getLast_mem hne

theorem ne_nil_of_getLast?_eq {l : List Char} {w : Char} (h : l.getLast? = some w) :
    l ≠ [] := by
  intro hnil
  rw [hnil] at h
  simp at h

theorem natDigits_1 : natDigits 1 = "1".data := by
  rw [natDigits, dif_pos (by norm_num)]

theorem natDigits_150 : natDigits 150 = "150".data := by
  rw [natDigits, dif_neg (by norm_num)]
  rw [show (150 : Nat) / 10 = 15 from by norm_num]
  rw [natDigits, dif_neg (by norm_num)]
  rw [show (15 : Nat) / 10 = 1 from by norm_num]
  rw [natDigits, dif_pos (by norm_num)]
  decide

theorem natDigits_512 : natDigits 512 = "512".data := by
  rw [natDigits, dif_neg (by norm_num)]
  rw [show (512 : Nat) / 10 = 51 from by norm_num]
  rw [natDigits, dif_neg (by norm_num)]
  rw [show (51 : Nat) / 10 = 5 from by norm_num]
  rw [natDigits, dif_pos (by norm_num)]
  decide

theorem gateFunction_NOT : gateFunction "NOT" = ("do_not_gate", 1) := by decide

theorem stmtRepl_NOT : stmtRepl "NOT" = "test_gate(\"NOT\", do_not_gate, 1);".data := by
  have h1 : (gateFunction "NOT").1 = "do_not_gate" := by rw [gateFunction_NOT]
  have h2 : (gateFunction "NOT").2 = 1 := by rw [gateFunction_NOT]
  unfold stmtRepl
  rw [h1, h2, natDigits_1]
  decide

theorem incRepl_NOT : incRepl "NOT" = "#include \"gates/compose_not.cpp\"".data := by
  decide

theorem matchLitAt_none_pre {p cs : List Char} (hpne : p ≠ [])
    (h : matchLitAt p cs = none) : p.isPrefixOf cs = false := by
  unfold matchLitAt at h
  split at h
  next he =>
    exfalso
    cases p with
    | nil => exact hpne rfl
    | cons x xs => simp at he
  next =>
    split at h
    next hb => exact Option.noConfusion h
    next hb =>
      cases hx : p.isPrefixOf cs with
      | false => rfl
      | true => exact absurd hx hb

theorem subDir_getLast_barrier (lit val : List Char) {w : Char}
    (hwd : w.isDigit = false) :
    ∀ (n : Nat) (cs : List Char), cs.length ≤ n → cs.getLast? = some w →
      (subDir lit val cs).getLast? = some w := by
  intro n
  induction n with
  | zero =>
    intro cs hcs hlast
    have : cs = [] := List.eq_nil_of_length_eq_zero (Nat.le_zero.mp hcs)
    subst this
    simp at hlast
  | succ n ih =>
    intro cs hcs hlast
    cases cs with
    | nil => simp at hlast
    | cons c cs =>
      cases hm : matchDirAt lit (c :: cs) with
      | some pr =>
        obtain ⟨run, rest⟩ := pr
        obtain ⟨hdecomp, hrun, hrdig, _⟩ := matchDirAt_some_parts hm
        have hrne : rest ≠ [] := by
          intro hnil
          rw [hnil, List.append_nil] at hdecomp
          rw [hdecomp, List.getLast?_append_of_ne_nil lit hrun] at hlast
          have hwrun : w ∈ run := mem_of_getLast?_eq hlast
          rw [hrdig w hwrun] at hwd
          exact Bool.noConfusion hwd
        have hrl : rest.getLast? = some w := by
          rw [hdecomp, List.getLast?_append_of_ne_nil _ hrne] at hlast
          exact hlast
        have hrlen : rest.length ≤ n := by
          have hlen := congrArg List.length hdecomp
          simp only [List.length_cons, List.length_append] at hlen
          have hrp : 1 ≤ run.length := List.length_pos.mpr hrun
          simp only [List.length_cons] at hcs
          omega
        have hout := ih rest hrlen hrl
        rw [subDir_cons_of_some hm,
          List.getLast?_append_of_ne_nil _ (ne_nil_of_getLast?_eq hout)]
        exact hout
      | none =>
        rw [subDir_cons_of_none hm]
        by_cases hcs0 : cs = []
        · subst hcs0
          rw [subDir_nil]
          simpa using hlast
        · have hlast2 : cs.getLast? = some w := by
            rw [show (c :: cs : List Char) = [c] ++ cs from rfl,
              List.getLast?_append_of_ne_nil _ hcs0] at hlast
            exact hlast
          have hout := ih cs
            (by simpa using Nat.le_of_succ_le_succ (by simpa using hcs)) hlast2
          rw [show (c :: subDir lit val cs : List Char) = [c] ++ subDir lit val cs
            from rfl, List.getLast?_append_of_ne_nil _ (ne_nil_of_getLast?_eq hout)]
          exact hout

theorem subDir_decompose_aux (lit val m b : List Char) {h0 w : Char}
    (hlit : lit.head? = some h0) (hh0m : h0 ∉ m)
    (hwl : w ∉ lit) (hwd : w.isDigit = false) :
    ∀ (n : Nat) (a : List Char), a.length ≤ n → (a = [] ∨ a.getLast? = some w) →
      subDir lit val (a ++ m ++ b) =
        subDir lit val a ++ m ++ subDir lit val b := by
  intro n
  induction n with
  | zero =>
    intro a ha hw
    have : a = [] := List.eq_nil_of_length_eq_zero (Nat.le_zero.mp ha)
    subst this
    simp only [List.nil_append, subDir_nil]
    exact subDir_append_free lit val hlit b m hh0m
  | succ n ih =>
    intro a ha hw
    cases a with
    | nil =>
      simp only [List.nil_append, subDir_nil]
      exact subDir_append_free lit val hlit b m hh0m
    | cons c a =>
      have hlast : (c :: a).getLast? = some w := by
        rcases hw with h | h
        · exact absurd h (by simp)
        · exact h
      cases hm : matchDirAt lit (c :: a) with
      | some pr =>
        obtain ⟨run, rest⟩ := pr
        obtain ⟨hdecomp, hrun, hrdig, hrhead⟩ := matchDirAt_some_parts hm
        have hrne : rest ≠ [] := by
          intro hnil
          rw [hnil, List.append_nil] at hdecomp
          rw [hdecomp, List.getLast?_append_of_ne_nil lit hrun] at hlast
          have hwrun : w ∈ run := mem_of_getLast?_eq hlast
          rw [hrdig w hwrun] at hwd
          exact Bool.noConfusion hwd
        have hrl : rest.getLast? = some w := by
          rw [hdecomp, List.getLast?_append_of_ne_nil _ hrne] at hlast
          exact hlast
        have hrlen : rest.length ≤ n := by
          have hlen := congrArg List.length hdecomp
          simp only [List.length_cons, List.length_append] at hlen
          have hrp : 1 ≤ run.length := List.length_pos.mpr hrun
          simp only [List.length_cons] at ha
          omega
        have hrhead2 : ∀ x ∈ (rest ++ m ++ b).head?, x.isDigit = false := by
          intro x hx
          rw [List.append_assoc, List.head?_append_of_ne_nil rest hrne] at hx
          exact hrhead x hx
        have hfull : matchDirAt lit ((c :: a) ++ m ++ b) =
            some (run, rest ++ m ++ b) := by
          rw [hdecomp]
          rw [show ((lit ++ run ++ rest) ++ m ++ b : List Char) =
            lit ++ run ++ (rest ++ m ++ b) by simp]
          exact matchDirAt_intro lit run (rest ++ m ++ b) hrun hrdig hrhead2
        rw [subDir_cons_of_some hfull, subDir_cons_of_some hm,
          ih rest hrlen (Or.inr hrl)]
        simp [List.append_assoc]
      | none =>
        have hnone : matchDirAt lit ((c :: a) ++ m ++ b) = none := by
          rcases matchDirAt_none_cases hm with hnp | hprend
          · apply matchDirAt_none_of_no_pre
            by_cases hlen : lit.length ≤ (c :: a).length
            · rw [List.append_assoc, isPrefixOf_append_iff_of_le hlen]
              exact hnp
            · cases hb : lit.isPrefixOf ((c :: a) ++ m ++ b) with
              | false => rfl
              | true =>
                exfalso
                rw [List.append_assoc] at hb
                obtain ⟨htake, hrest2⟩ := isPrefixOf_append_split hb (by omega)
                have hsub : (c :: a) <+: lit := by
                  rw [htake]
                  exact List.take_prefix _ _
                exact hwl (hsub.subset (mem_of_getLast?_eq hlast))
          · obtain ⟨hpre, hnd⟩ := hprend
            have hlenle : lit.length ≤ (c :: a).length :=
              (List.isPrefixOf_iff_prefix.mp hpre).length_le
            have hpre2 : lit.isPrefixOf ((c :: a) ++ m ++ b) = true := by
              rw [List.append_assoc, isPrefixOf_append_iff_of_le hlenle]
              exact hpre
            apply matchDirAt_none_of_no_digit hpre2
            have hane : (c :: a).drop lit.length ≠ [] := by
              intro hnil
              have hca := eq_append_drop_of_isPrefixOf hpre
              rw [hnil, List.append_nil] at hca
              apply hwl
              rw [← hca]
              exact mem_of_getLast?_eq hlast
            intro x hx
            rw [List.append_assoc, List.drop_append_eq_append_drop,
              Nat.sub_eq_zero_of_le hlenle, List.drop_zero,
              List.head?_append_of_ne_nil _ hane] at hx
            exact hnd x hx
        have ha2 : a = [] ∨ a.getLast? = some w := by
          by_cases h00 : a = []
          · exact Or.inl h00
          · right
            rw [show (c :: a : List Char) = [c] ++ a from rfl,
              List.getLast?_append_of_ne_nil _ h00] at hlast
            exact hlast
        have hrec := ih a (by simpa using Nat.le_of_succ_le_succ (by simpa using ha)) ha2
        rw [show ((c :: a) ++ m ++ b : List Char) = c :: (a ++ m ++ b) by simp]
        rw [subDir_cons_of_none (show matchDirAt lit (c :: (a ++ m ++ b)) = none from by
          rw [show (c :: (a ++ m ++ b) : List Char) = (c :: a) ++ m ++ b by simp]
          exact hnone)]
        rw [subDir_cons_of_none hm, hrec]
        simp

theorem subDir_decompose (lit val m b a : List Char) {h0 w : Char}
    (hlit : lit.head? = some h0) (hh0m : h0 ∉ m)
    (hwl : w ∉ lit) (hwd : w.isDigit = false)
    (hal : a.getLast? = some w) :
    subDir lit val (a ++ m ++ b) = subDir lit val a ++ m ++ subDir lit val b :=
  subDir_decompose_aux lit val m b hlit hh0m hwl hwd a.length a (le_refl _) (Or.inr hal)

theorem subLit_decompose_aux (p r m b : List Char) {h0 w : Char}
    (hp : p.head? = some h0) (hh0m : h0 ∉ m) (hwp : w ∉ p) :
    ∀ (n : Nat) (a : List Char), a.length ≤ n → (a = [] ∨ a.getLast? = some w) →
      subLit p r (a ++ m ++ b) = subLit p r a ++ m ++ subLit p r b := by
  have hpne : p ≠ [] := by
    intro h
    rw [h] at hp
    simp at hp
  intro n
  induction n with
  | zero =>
    intro a ha hw
    have : a = [] := List.eq_nil_of_length_eq_zero (Nat.le_zero.mp ha)
    subst this
    simp only [List.nil_append, subLit_nil]
    exact subLit_append_free p r hp b m hh0m
  | succ n ih =>
    intro a ha hw
    cases a with
    | nil =>
      simp only [List.nil_append, subLit_nil]
      exact subLit_append_free p r hp b m hh0m
    | cons c a =>
      have hlast : (c :: a).getLast? = some w := by
        rcases hw with h | h
        · exact absurd h (by simp)
        · exact h
      cases hm : matchLitAt p (c :: a) with
      | some rest =>
        obtain ⟨hdecomp, _⟩ := matchLitAt_some_parts hm
        have hrne : rest ≠ [] := by
          intro hnil
          rw [hnil, List.append_nil] at hdecomp
          apply hwp
          rw [← hdecomp]
          exact mem_of_getLast?_eq hlast
        have hrl : rest.getLast? = some w := by
          rw [hdecomp, List.getLast?_append_of_ne_nil _ hrne] at hlast
          exact hlast
        have hrlen : rest.length ≤ n := by
          have hlen := congrArg List.length hdecomp
          simp only [List.length_cons, List.length_append] at hlen
          have hrp : 1 ≤ p.length := List.length_pos.mpr hpne
          simp only [List.length_cons] at ha
          omega
        have hfull : matchLitAt p ((c :: a) ++ m ++ b) = some (rest ++ m ++ b) := by
          rw [hdecomp]
          rw [show ((p ++ rest) ++ m ++ b : List Char) = p ++ (rest ++ m ++ b) by simp]
          exact matchLitAt_intro p (rest ++ m ++ b) hpne
        rw [subLit_cons_of_some hfull, subLit_cons_of_some hm,
          ih rest hrlen (Or.inr hrl)]
        simp [List.append_assoc]
      | none =>
        have hnp := matchLitAt_none_pre hpne hm
        have hnone : matchLitAt p ((c :: a) ++ m ++ b) = none := by
          apply matchLitAt_none_of_no_pre
          by_cases hlen : p.length ≤ (c :: a).length
          · rw [List.append_assoc, isPrefixOf_append_iff_of_le hlen]
            exact hnp
          · cases hb : p.isPrefixOf ((c :: a) ++ m ++ b) with
            | false => rfl
            | true =>
              exfalso
              rw [List.append_assoc] at hb
              obtain ⟨htake, hrest2⟩ := isPrefixOf_append_split hb (by omega)
              have hsub : (c :: a) <+: p := by
                rw [htake]
                exact List.take_prefix _ _
              exact hwp (hsub.subset (mem_of_getLast?_eq hlast))
        have ha2 : a = [] ∨ a.getLast? = some w := by
          by_cases h00 : a = []
          · exact Or.inl h00
          · right
            rw [show (c :: a : List Char) = [c] ++ a from rfl,
              List.getLast?_append_of_ne_nil _ h00] at hlast
            exact hlast
        have hrec := ih a (by simpa using Nat.le_of_succ_le_succ (by simpa using ha)) ha2
        rw [show ((c :: a) ++ m ++ b : List Char) = c :: (a ++ m ++ b) by simp]
        rw [subLit_cons_of_none (show matchLitAt p (c :: (a ++ m ++ b)) = none from by
          rw [show (c :: (a ++ m ++ b) : List Char) = (c :: a) ++ m ++ b by simp]
          exact hnone)]
        rw [subLit_cons_of_none hm, hrec]
        simp

theorem subLit_decompose (p r m b a : List Char) {h0 w : Char}
    (hp : p.head? = some h0) (hh0m : h0 ∉ m) (hwp : w ∉ p)
    (hal : a.getLast? = some w) :
    subLit p r (a ++ m ++ b) = subLit p r a ++ m ++ subLit p r b :=
  subLit_decompose_aux p r m b hp hh0m hwp a.length a (le_refl _) (Or.inr hal)

theorem dirMatches_skip_block (lit : List Char) {h0 c0 : Char} (pre2 : List Char)
    (hlit : lit.head? = some h0)
    (hnp : ∀ x, lit.isPrefixOf ((c0 :: pre2) ++ x) = false) (htl : h0 ∉ pre2) :
    ∀ x, dirMatches lit ((c0 :: pre2) ++ x) = dirMatches lit x := by
  intro x
  have hnone : matchDirAt lit (c0 :: (pre2 ++ x)) = none :=
    matchDirAt_none_of_no_pre (hnp x)
  rw [show ((c0 :: pre2) ++ x : List Char) = c0 :: (pre2 ++ x) from rfl,
    dirMatches_cons_of_none hnone]
  exact dirMatches_append_free lit hlit x pre2 htl

theorem subLit_embed_aux (p r b : List Char) (hpne : p ≠ []) :
    ∀ a : List Char, (∀ s, s <:+ a → s ≠ [] → p.isPrefixOf (s ++ p ++ b) = false) →
      subLit p r (a ++ p ++ b) = a ++ r ++ subLit p r b := by
  intro a
  induction a with
  | nil =>
    intro _
    simp only [List.nil_append]
    exact subLit_cons_of_some (matchLitAt_intro p b hpne)
  | cons c a ih =>
    intro hA
    have hnp : p.isPrefixOf ((c :: a) ++ p ++ b) = false :=
      hA (c :: a) (List.suffix_refl _) (by simp)
    have hnone : matchLitAt p (c :: (a ++ p ++ b)) = none := by
      apply matchLitAt_none_of_no_pre
      rw [show (c :: (a ++ p ++ b) : List Char) = (c :: a) ++ p ++ b by simp]
      exact hnp
    rw [show ((c :: a) ++ p ++ b : List Char) = c :: (a ++ p ++ b) by simp,
      subLit_cons_of_none hnone,
      ih (fun s hs hne => hA s (hs.trans (List.suffix_cons c a)) hne)]
    simp

theorem subLit_embed (p r b a tok : List Char) {p0 : Char}
    (hp : p.head? = some p0)
    (hself : ∀ j, j < p.length → 0 < j → (p.drop j).isPrefixOf p = false)
    (htokp : tok <:+: p) (hna : ¬ tok <:+: a) :
    subLit p r (a ++ p ++ b) = a ++ r ++ subLit p r b := by
  have hpne : p ≠ [] := by
    intro h
    rw [h] at hp
    simp at hp
  apply subLit_embed_aux p r b hpne
  intro s hs hne
  cases hb : p.isPrefixOf (s ++ p ++ b) with
  | false => rfl
  | true =>
    exfalso
    by_cases hlen : p.length ≤ s.length
    · rw [List.append_assoc, isPrefixOf_append_iff_of_le hlen] at hb
      have hps : p <+: s := List.isPrefixOf_iff_prefix.mp hb
      exact hna ((htokp.trans hps.isInfix).trans hs.isInfix)
    · rw [List.append_assoc] at hb
      obtain ⟨htake, hdrop⟩ := isPrefixOf_append_split hb (by omega)
      have hlt : (p.drop s.length).length ≤ p.length := by
        rw [List.length_drop]
        omega
      rw [isPrefixOf_append_iff_of_le hlt] at hdrop
      have hspos : 0 < s.length := List.length_pos.mpr hne
      rw [hself s.length (by omega) hspos] at hdrop
      exact Bool.noConfusion hdrop

theorem subLit_no_match (p r : List Char) :
    ∀ cs, ¬ p <:+: cs → subLit p r cs = cs := by
  intro cs
  induction cs with
  | nil => intro _; exact subLit_nil p r
  | cons c cs ih =>
    intro hn
    have hnone : matchLitAt p (c :: cs) = none := by
      cases hm : matchLitAt p (c :: cs) with
      | none => rfl
      | some rest =>
        exfalso
        obtain ⟨hdecomp, _⟩ := matchLitAt_some_parts hm
        exact hn ⟨[], rest, by rw [hdecomp]; simp⟩
    rw [subLit_cons_of_none hnone, ih (fun h => hn (List.infix_cons h))]

/-- C1, witness: a concrete matrix with two equal maxima at different grid
points; the selector returns the first in row-major order, `(100, 48, 5)`. -/
theorem c1_selector_witness :
    ∃ e, (matrixEntries [(100, [0, 5, 5]), (125, [5, 0, 0])]).find?
        (fun e => e.2.2 == matrixMax [(100, [0, 5, 5]), (125, [5, 0, 0])]) = some e ∧
      selectBest [(100, [0, 5, 5]), (125, [5, 0, 0])] = ⟨e.1, e.2.1, e.2.2⟩ ∧
      (selectBest [(100, [0, 5, 5]), (125, [5, 0, 0])]).accuracy =
        matrixMax [(100, [0, 5, 5]), (125, [5, 0, 0])] :=
  c1_selector_amended [(100, [0, 5, 5]), (125, [5, 0, 0])] (by decide) (by decide)

/-- C8, counterexample: `strayMain` satisfies the claim's literal
precondition — exactly one threshold directive, one delay directive and one
placeholder-invocation statement — yet, because a stray placeholder token
sits in a comment outside the invocation, the generated main text retains a
placeholder token: the claim's `zero leftover placeholder tokens` fails. -/
theorem c8_counterexample :
    dirMatches THR_LIT strayMain = ["100".data] ∧
    dirMatches DLY_LIT strayMain = ["32".data] ∧
    litOccurs STMT_PAT strayMain = 1 ∧
    TOKEN <:+: (create_optimized_binary_texts "NOT" 150 512 plainCompose strayMain).2 := by
  refine ⟨?_, ?_, ?_, ?_⟩
  · rw [← dirMatchesF_eq THR_LIT strayMain.length strayMain (le_refl _)]
    decide
  · rw [← dirMatchesF_eq DLY_LIT strayMain.length strayMain (le_refl _)]
    decide
  · rw [← litOccursF_eq STMT_PAT strayMain.length strayMain (le_refl _)]
    decide
  · have h1 : subDir THR_LIT "150".data strayMain =
        ("#define THRESHOLD 150\n#define DELAY 32\n#include \"gates/compose.cpp\"\ntest_gate(\"GATE_NAME_PLACEHOLDER\", GATE_FUNCTION_PLACEHOLDER, GATE_INPUTS_PLACEHOLDER);\n// GATE_INPUTS_PLACEHOLDER\n").data := by
      rw [← subDirF_eq THR_LIT "150".data strayMain.length strayMain (le_refl _)]
      decide
    have h2 : subDir DLY_LIT "512".data
        ("#define THRESHOLD 150\n#define DELAY 32\n#include \"gates/compose.cpp\"\ntest_gate(\"GATE_NAME_PLACEHOLDER\", GATE_FUNCTION_PLACEHOLDER, GATE_INPUTS_PLACEHOLDER);\n// GATE_INPUTS_PLACEHOLDER\n").data =
        ("#define THRESHOLD 150\n#define DELAY 512\n#include \"gates/compose.cpp\"\ntest_gate(\"GATE_NAME_PLACEHOLDER\", GATE_FUNCTION_PLACEHOLDER, GATE_INPUTS_PLACEHOLDER);\n// GATE_INPUTS_PLACEHOLDER\n").data := by
      rw [← subDirF_eq DLY_LIT "512".data _ _ (le_refl _)]
      decide
    have h3 : subLit INC_PAT (incRepl "NOT")
        ("#define THRESHOLD 150\n#define DELAY 512\n#include \"gates/compose.cpp\"\ntest_gate(\"GATE_NAME_PLACEHOLDER\", GATE_FUNCTION_PLACEHOLDER, GATE_INPUTS_PLACEHOLDER);\n// GATE_INPUTS_PLACEHOLDER\n").data =
        ("#define THRESHOLD 150\n#define DELAY 512\n#include \"gates/compose_not.cpp\"\ntest_gate(\"GATE_NAME_PLACEHOLDER\", GATE_FUNCTION_PLACEHOLDER, GATE_INPUTS_PLACEHOLDER);\n// GATE_INPUTS_PLACEHOLDER\n").data := by
      rw [← subLitF_eq INC_PAT (incRepl "NOT") _ _ (le_refl _)]
      decide
    have h4 : subLit STMT_PAT (stmtRepl "NOT")
        ("#define THRESHOLD 150\n#define DELAY 512\n#include \"gates/compose_not.cpp\"\ntest_gate(\"GATE_NAME_PLACEHOLDER\", GATE_FUNCTION_PLACEHOLDER, GATE_INPUTS_PLACEHOLDER);\n// GATE_INPUTS_PLACEHOLDER\n").data =
        ("#define THRESHOLD 150\n#define DELAY 512\n#include \"gates/compose_not.cpp\"\ntest_gate(\"NOT\", do_not_gate, 1);\n// GATE_INPUTS_PLACEHOLDER\n").data := by
      rw [stmtRepl_NOT, ← subLitF_eq STMT_PAT _ _ _ (le_refl _)]
      decide
    show TOKEN <:+: subLit STMT_PAT (stmtRepl "NOT") (subLit INC_PAT (incRepl "NOT")
      (subDir DLY_LIT (natDigits 512) (subDir THR_LIT (natDigits 150) strayMain)))
    rw [natDigits_150, natDigits_512, h1, h2, h3, h4]
    decide

/-- C8, amended: under the strengthened precondition — exactly one threshold
directive and one delay directive per template, and the main template of the
form `A ++ STMT_PAT ++ B` around its single placeholder invocation with no
placeholder token in `A` or `B` and `A` ending in a newline — generating the
`(NOT, 150, 512)` variant produces a compose text and a main text whose
threshold-directive matches are exactly `["150"]`, whose delay-directive
matches are exactly `["512"]`, and which hold no leftover placeholder
token. -/
theorem c8_amended (tc A B vt vd wt wd : List Char)
    (hc1 : dirMatches THR_LIT tc = [vt]) (hc2 : dirMatches DLY_LIT tc = [vd])
    (htc : ¬ TOKEN <:+: tc)
    (hm1 : dirMatches THR_LIT (A ++ STMT_PAT ++ B) = [wt])
    (hm2 : dirMatches DLY_LIT (A ++ STMT_PAT ++ B) = [wd])
    (hA : ¬ TOKEN <:+: A) (hB : ¬ TOKEN <:+: B)
    (hAl : A.getLast? = some '\n') :
    dirMatches THR_LIT
        (create_optimized_binary_texts "NOT" 150 512 tc (A ++ STMT_PAT ++ B)).1 =
      ["150".data] ∧
    dirMatches DLY_LIT
        (create_optimized_binary_texts "NOT" 150 512 tc (A ++ STMT_PAT ++ B)).1 =
      ["512".data] ∧
    ¬ TOKEN <:+:
        (create_optimized_binary_texts "NOT" 150 512 tc (A ++ STMT_PAT ++ B)).1 ∧
    dirMatches THR_LIT
        (create_optimized_binary_texts "NOT" 150 512 tc (A ++ STMT_PAT ++ B)).2 =
      ["150".data] ∧
    dirMatches DLY_LIT
        (create_optimized_binary_texts "NOT" 150 512 tc (A ++ STMT_PAT ++ B)).2 =
      ["512".data] ∧
    ¬ TOKEN <:+:
        (create_optimized_binary_texts "NOT" 150 512 tc (A ++ STMT_PAT ++ B)).2 := by
  have hout1 : (create_optimized_binary_texts "NOT" 150 512 tc (A ++ STMT_PAT ++ B)).1 =
      subDir DLY_LIT "512".data (subDir THR_LIT "150".data tc) := by
    show subDir DLY_LIT (natDigits 512) (subDir THR_LIT (natDigits 150) tc) = _
    rw [natDigits_150, natDigits_512]
  have hout2 : (create_optimized_binary_texts "NOT" 150 512 tc (A ++ STMT_PAT ++ B)).2 =
      subLit STMT_PAT (stmtRepl "NOT") (subLit INC_PAT (incRepl "NOT")
        (subDir DLY_LIT "512".data
          (subDir THR_LIT "150".data (A ++ STMT_PAT ++ B)))) := by
    show subLit STMT_PAT (stmtRepl "NOT") (subLit INC_PAT (incRepl "NOT")
      (subDir DLY_LIT (natDigits 512)
        (subDir THR_LIT (natDigits 150) (A ++ STMT_PAT ++ B)))) = _
    rw [natDigits_150, natDigits_512]
  have hTh : THR_LIT.head? = some '#' := by decide
  have hDh : DLY_LIT.head? = some '#' := by decide
  have hIh : INC_PAT.head? = some '#' := by decide
  have hIRh : (incRepl "NOT").head? = some '#' := by decide
  have hSh : STMT_PAT.head? = some 't' := by decide
  have hRh : (stmtRepl "NOT").head? = some 't' := by
    rw [stmtRepl_NOT]
    decide
  have hfree_sp_thr : ∀ x, dirMatches THR_LIT (STMT_PAT ++ x) = dirMatches THR_LIT x :=
    fun x => dirMatches_append_free THR_LIT hTh x STMT_PAT (by decide)
  have hfree_sp_dly : ∀ x, dirMatches DLY_LIT (STMT_PAT ++ x) = dirMatches DLY_LIT x :=
    fun x => dirMatches_append_free DLY_LIT hDh x STMT_PAT (by decide)
  have hfree_r_thr : ∀ x, dirMatches THR_LIT (stmtRepl "NOT" ++ x) =
      dirMatches THR_LIT x := by
    intro x
    rw [stmtRepl_NOT]
    exact dirMatches_append_free THR_LIT hTh x _ (by decide)
  have hfree_r_dly : ∀ x, dirMatches DLY_LIT (stmtRepl "NOT" ++ x) =
      dirMatches DLY_LIT x := by
    intro x
    rw [stmtRepl_NOT]
    exact dirMatches_append_free DLY_LIT hDh x _ (by decide)
  have hskip_inc_thr : ∀ x, dirMatches THR_LIT (INC_PAT ++ x) = dirMatches THR_LIT x :=
    fun x => dirMatches_skip_block THR_LIT ("include \"gates/compose.cpp\"".data) hTh
      (not_isPrefixOf_append_of_mismatch 1 (by decide) (by decide) (by decide))
      (by decide) x
  have hskip_inc_dly : ∀ x, dirMatches DLY_LIT (INC_PAT ++ x) = dirMatches DLY_LIT x :=
    fun x => dirMatches_skip_block DLY_LIT ("include \"gates/compose.cpp\"".data) hDh
      (not_isPrefixOf_append_of_mismatch 1 (by decide) (by decide) (by decide))
      (by decide) x
  have hskip_ir_thr : ∀ x, dirMatches THR_LIT (incRepl "NOT" ++ x) =
      dirMatches THR_LIT x := by
    intro x
    rw [incRepl_NOT]
    exact dirMatches_skip_block THR_LIT ("include \"gates/compose_not.cpp\"".data) hTh
      (not_isPrefixOf_append_of_mismatch 1 (by decide) (by decide) (by decide))
      (by decide) x
  have hskip_ir_dly : ∀ x, dirMatches DLY_LIT (incRepl "NOT" ++ x) =
      dirMatches DLY_LIT x := by
    intro x
    rw [incRepl_NOT]
    exact dirMatches_skip_block DLY_LIT ("include \"gates/compose_not.cpp\"".data) hDh
      (not_isPrefixOf_append_of_mismatch 1 (by decide) (by decide) (by decide))
      (by decide) x
  have hc_thr : dirMatches THR_LIT (subDir DLY_LIT "512".data
      (subDir THR_LIT "150".data tc)) = ["150".data] := by
    rw [dirMatches_subDir_other DLY_LIT THR_LIT "512".data hDh (by decide) hTh (by decide)
      (by decide) (by decide) (by decide)
      (not_isPrefixOf_append_of_mismatch 8 (by decide) (by decide) (by decide)) _]
    rw [dirMatches_subDir_self THR_LIT "150".data hTh (by decide) (by decide) (by decide) tc,
      hc1]
    rfl
  have hc_dly : dirMatches DLY_LIT (subDir DLY_LIT "512".data
      (subDir THR_LIT "150".data tc)) = ["512".data] := by
    rw [dirMatches_subDir_self DLY_LIT "512".data hDh (by decide) (by decide) (by decide) _]
    rw [dirMatches_subDir_other THR_LIT DLY_LIT "150".data hTh (by decide) hDh (by decide)
      (by decide) (by decide) (by decide)
      (not_isPrefixOf_append_of_mismatch 8 (by decide) (by decide) (by decide)) tc,
      hc2]
    rfl
  have hc_tok : ¬ TOKEN <:+: subDir DLY_LIT "512".data (subDir THR_LIT "150".data tc) :=
    not_infix_subDir DLY_LIT "512".data TOKEN hDh (by decide) (by decide) (by decide)
      (by decide) (by decide) (by decide) _
      (not_infix_subDir THR_LIT "150".data TOKEN hTh (by decide) (by decide) (by decide)
        (by decide) (by decide) (by decide) tc htc)
  have hm_thr : dirMatches THR_LIT (subLit STMT_PAT (stmtRepl "NOT")
      (subLit INC_PAT (incRepl "NOT") (subDir DLY_LIT "512".data
        (subDir THR_LIT "150".data (A ++ STMT_PAT ++ B))))) = ["150".data] := by
    rw [dirMatches_subLit STMT_PAT (stmtRepl "NOT") THR_LIT hTh (by decide) hSh hRh
      (by decide) (by decide) hfree_sp_thr hfree_r_thr _]
    rw [dirMatches_subLit INC_PAT (incRepl "NOT") THR_LIT hTh (by decide) hIh hIRh
      (by decide) (by decide) hskip_inc_thr hskip_ir_thr _]
    rw [dirMatches_subDir_other DLY_LIT THR_LIT "512".data hDh (by decide) hTh (by decide)
      (by decide) (by decide) (by decide)
      (not_isPrefixOf_append_of_mismatch 8 (by decide) (by decide) (by decide)) _]
    rw [dirMatches_subDir_self THR_LIT "150".data hTh (by decide) (by decide) (by decide) _,
      hm1]
    rfl
  have hm_dly : dirMatches DLY_LIT (subLit STMT_PAT (stmtRepl "NOT")
      (subLit INC_PAT (incRepl "NOT") (subDir DLY_LIT "512".data
        (subDir THR_LIT "150".data (A ++ STMT_PAT ++ B))))) = ["512".data] := by
    rw [dirMatches_subLit STMT_PAT (stmtRepl "NOT") DLY_LIT hDh (by decide) hSh hRh
      (by decide) (by decide) hfree_sp_dly hfree_r_dly _]
    rw [dirMatches_subLit INC_PAT (incRepl "NOT") DLY_LIT hDh (by decide) hIh hIRh
      (by decide) (by decide) hskip_inc_dly hskip_ir_dly _]
    rw [dirMatches_subDir_self DLY_LIT "512".data hDh (by decide) (by decide) (by decide) _]
    rw [dirMatches_subDir_other THR_LIT DLY_LIT "150".data hTh (by decide) hDh (by decide)
      (by decide) (by decide) (by decide)
      (not_isPrefixOf_append_of_mismatch 8 (by decide) (by decide) (by decide)) _,
      hm2]
    rfl
  have hA1l : (subDir THR_LIT "150".data A).getLast? = some '\n' :=
    subDir_getLast_barrier THR_LIT "150".data (by decide) A.length A (le_refl _) hAl
  have hA2l : (subDir DLY_LIT "512".data (subDir THR_LIT "150".data A)).getLast? =
      some '\n' :=
    subDir_getLast_barrier DLY_LIT "512".data (by decide) _ _ (le_refl _) hA1l
  have hd1 : subDir THR_LIT "150".data (A ++ STMT_PAT ++ B) =
      subDir THR_LIT "150".data A ++ STMT_PAT ++ subDir THR_LIT "150".data B :=
    subDir_decompose THR_LIT "150".data STMT_PAT B A hTh (by decide) (by decide)
      (by decide) hAl
  have hd2 : subDir DLY_LIT "512".data (subDir THR_LIT "150".data A ++ STMT_PAT ++
        subDir THR_LIT "150".data B) =
      subDir DLY_LIT "512".data (subDir THR_LIT "150".data A) ++ STMT_PAT ++
        subDir DLY_LIT "512".data (subDir THR_LIT "150".data B) :=
    subDir_decompose DLY_LIT "512".data STMT_PAT _ _ hDh (by decide) (by decide)
      (by decide) hA1l
  have hd3 : subLit INC_PAT (incRepl "NOT")
        (subDir DLY_LIT "512".data (subDir THR_LIT "150".data A) ++ STMT_PAT ++
          subDir DLY_LIT "512".data (subDir THR_LIT "150".data B)) =
      subLit INC_PAT (incRepl "NOT")
          (subDir DLY_LIT "512".data (subDir THR_LIT "150".data A)) ++ STMT_PAT ++
        subLit INC_PAT (incRepl "NOT")
          (subDir DLY_LIT "512".data (subDir THR_LIT "150".data B)) :=
    subLit_decompose INC_PAT (incRepl "NOT") STMT_PAT _ _ hIh (by decide) (by decide) hA2l
  have hA3tok : ¬ TOKEN <:+: subLit INC_PAT (incRepl "NOT")
      (subDir DLY_LIT "512".data (subDir THR_LIT "150".data A)) :=
    @not_infix_subLit INC_PAT (incRepl "NOT") TOKEN '#' '"' hIRh (by decide) (by decide)
      (by decide) (by decide) (by decide) _
      (not_infix_subDir DLY_LIT "512".data TOKEN hDh (by decide) (by decide) (by decide)
        (by decide) (by decide) (by decide) _
        (not_infix_subDir THR_LIT "150".data TOKEN hTh (by decide) (by decide) (by decide)
          (by decide) (by decide) (by decide) A hA))
  have hB3tok : ¬ TOKEN <:+: subLit INC_PAT (incRepl "NOT")
      (subDir DLY_LIT "512".data (subDir THR_LIT "150".data B)) :=
    @not_infix_subLit INC_PAT (incRepl "NOT") TOKEN '#' '"' hIRh (by decide) (by decide)
      (by decide) (by decide) (by decide) _
      (not_infix_subDir DLY_LIT "512".data TOKEN hDh (by decide) (by decide) (by decide)
        (by decide) (by decide) (by decide) _
        (not_infix_subDir THR_LIT "150".data TOKEN hTh (by decide) (by decide) (by decide)
          (by decide) (by decide) (by decide) B hB))
  have hembed : subLit STMT_PAT (stmtRepl "NOT")
        (subLit INC_PAT (incRepl "NOT")
            (subDir DLY_LIT "512".data (subDir THR_LIT "150".data A)) ++ STMT_PAT ++
          subLit INC_PAT (incRepl "NOT")
            (subDir DLY_LIT "512".data (subDir THR_LIT "150".data B))) =
      subLit INC_PAT (incRepl "NOT")
          (subDir DLY_LIT "512".data (subDir THR_LIT "150".data A)) ++
        stmtRepl "NOT" ++
        subLit STMT_PAT (stmtRepl "NOT")
          (subLit INC_PAT (incRepl "NOT")
            (subDir DLY_LIT "512".data (subDir THR_LIT "150".data B))) :=
    subLit_embed STMT_PAT (stmtRepl "NOT") _ _ TOKEN hSh (by decide) (by decide) hA3tok
  have hBno : subLit STMT_PAT (stmtRepl "NOT")
      (subLit INC_PAT (incRepl "NOT")
        (subDir DLY_LIT "512".data (subDir THR_LIT "150".data B))) =
      subLit INC_PAT (incRepl "NOT")
        (subDir DLY_LIT "512".data (subDir THR_LIT "150".data B)) :=
    subLit_no_match STMT_PAT (stmtRepl "NOT") _
      (fun h => hB3tok ((by decide : TOKEN <:+: STMT_PAT).trans h))
  have hm_tok : ¬ TOKEN <:+:
      (subLit INC_PAT (incRepl "NOT")
          (subDir DLY_LIT "512".data (subDir THR_LIT "150".data A)) ++
        stmtRepl "NOT" ++
        subLit INC_PAT (incRepl "NOT")
          (subDir DLY_LIT "512".data (subDir THR_LIT "150".data B))) := by
    intro hinf
    rw [List.append_assoc] at hinf
    rcases infix_split_left (show (stmtRepl "NOT" ++
        subLit INC_PAT (incRepl "NOT")
          (subDir DLY_LIT "512".data (subDir THR_LIT "150".data B))).head? =
          some 't' from by
        rw [List.head?_append_of_ne_nil _ (show stmtRepl "NOT" ≠ [] from by
          rw [stmtRepl_NOT]; decide), hRh])
      (by decide) hinf with h | h
    · exact hA3tok h
    · rcases infix_split_right (show (stmtRepl "NOT").getLast? = some ';' from by
          rw [stmtRepl_NOT]; decide)
        (by decide) h with h2 | h2
      · exact (show ¬ TOKEN <:+: stmtRepl "NOT" from by rw [stmtRepl_NOT]; decide) h2
      · exact hB3tok h2
  refine ⟨?_, ?_, ?_, ?_, ?_, ?_⟩
  · rw [hout1]
    exact hc_thr
  · rw [hout1]
    exact hc_dly
  · rw [hout1]
    exact hc_tok
  · rw [hout2]
    exact hm_thr
  · rw [hout2]
    exact hm_dly
  · rw [hout2, hd1, hd2, hd3, hembed, hBno]
    exact hm_tok

/-- C8, witness: the concrete well-formed templates `plainCompose` and
`cleanMainA ++ STMT_PAT ++ cleanMainB` satisfy the amended precondition, and
the generated `(NOT, 150, 512)` texts carry exactly one `150` and one `512`
at the directive sites and no leftover placeholder token. -/
theorem c8_witness :
    dirMatches THR_LIT plainCompose = ["100".data] ∧
    dirMatches THR_LIT (cleanMainA ++ STMT_PAT ++ cleanMainB) = ["100".data] ∧
    ¬ TOKEN <:+: cleanMainA ∧ ¬ TOKEN <:+: cleanMainB ∧
    dirMatches THR_LIT
        (create_optimized_binary_texts "NOT" 150 512 plainCompose
          (cleanMainA ++ STMT_PAT ++ cleanMainB)).2 = ["150".data] ∧
    dirMatches DLY_LIT
        (create_optimized_binary_texts "NOT" 150 512 plainCompose
          (cleanMainA ++ STMT_PAT ++ cleanMainB)).2 = ["512".data] ∧
    ¬ TOKEN <:+:
        (create_optimized_binary_texts "NOT" 150 512 plainCompose
          (cleanMainA ++ STMT_PAT ++ cleanMainB)).2 := by
  have h1 : dirMatches THR_LIT plainCompose = ["100".data] := by
    rw [← dirMatchesF_eq THR_LIT plainCompose.length plainCompose (le_refl _)]
    decide
  have h2 : dirMatches DLY_LIT plainCompose = ["32".data] := by
    rw [← dirMatchesF_eq DLY_LIT plainCompose.length plainCompose (le_refl _)]
    decide
  have h3 : dirMatches THR_LIT (cleanMainA ++ STMT_PAT ++ cleanMainB) = ["100".data] := by
    rw [← dirMatchesF_eq THR_LIT (cleanMainA ++ STMT_PAT ++ cleanMainB).length _
      (le_refl _)]
    decide
  have h4 : dirMatches DLY_LIT (cleanMainA ++ STMT_PAT ++ cleanMainB) = ["32".data] := by
    rw [← dirMatchesF_eq DLY_LIT (cleanMainA ++ STMT_PAT ++ cleanMainB).length _
      (le_refl _)]
    decide
  obtain ⟨o1, o2, o3, o4, o5, o6⟩ := c8_amended plainCompose cleanMainA cleanMainB
    "100".data "32".data "100".data "32".data h1 h2 (by decide) h3 h4 (by decide)
    (by decide) (by decide)
  exact ⟨h1, h3, by decide, by decide, o4, o5, o6⟩

end GridSearch
